import Mathlib

/-!
UwDriftPosition: the drift mobility model of DESERT.

Shallow embedding of `DESERT/mobility/uwdriftposition/uwdriftposition.cpp`.

* C++ `double` values are rationals (`ℚ`). The arithmetic of the loop body
  (speeds, candidates, reflections) is exact: its rounding is not modelled.
* The loop variable `t` of `update` is modelled twice. `updateLoop` and
  `update` add `updateTime_` exactly. `updateLoopD` and `updateD` round every
  `t += updateTime_` to a double (`roundDouble`, IEEE 754 binary64, round to
  nearest, ties to even), as the program does; the number of iterations, the
  value left in `nextUpdateTime_` and the exit of the loop are stated on these.
* The process-wide generator `RNG::defaultrng()` is a stream of draws together
  with the number of draws already consumed.
* The `for` loop of `update` does not terminate for every input, so the loop
  takes a fuel argument: one unit per iteration, `none` when it runs out.
* `debug_` only guards `printf` calls and `tracefile_enabler_` only opens a
  file; neither changes the state and both are left out of the state.
-/

set_option linter.dupNamespace false

namespace UwDrift

/-- The generator behind `RNG::defaultrng()`: `draws i` is the value the
`i`-th call of `uniform_double()` returns, `pos` counts the calls made. -/
structure RNG where
  draws : Nat → ℚ
  pos : Nat

/-- One call of `RNG::defaultrng()->uniform_double()`: the value drawn and the
generator after the draw. -/
def uniform_double (r : RNG) : ℚ × RNG :=
  (r.draws r.pos, { r with pos := r.pos + 1 })

/-- The data members of `UwDriftPosition` that `update` and the getters read
or write (`x_`, `y_`, `z_` are inherited from `Position`). The bound flags are
numbers compared with `1`, as in the source. -/
structure UwDriftPosition where
  x_ : ℚ
  y_ : ℚ
  z_ : ℚ
  xFieldWidth_ : ℚ
  yFieldWidth_ : ℚ
  zFieldWidth_ : ℚ
  boundx_ : ℚ
  boundy_ : ℚ
  boundz_ : ℚ
  speed_horizontal_ : ℚ
  speed_longitudinal_ : ℚ
  speed_vertical_ : ℚ
  alpha_ : ℚ
  deltax_ : ℚ
  deltay_ : ℚ
  deltaz_ : ℚ
  starting_speed_x_ : ℚ
  starting_speed_y_ : ℚ
  starting_speed_z_ : ℚ
  updateTime_ : ℚ
  nextUpdateTime_ : ℚ
  old_speed_x_ : ℚ
  old_speed_y_ : ℚ
  old_speed_z_ : ℚ
  deriving DecidableEq

/-- The method `UwDriftPosition::getSign` (lines 247-257): one draw, `1` when it is below
`0.5` and `-1` otherwise. The return type `short` is an integer. -/
def getSign (r : RNG) : Int × RNG :=
  let rand_sign := (uniform_double r).1
  if rand_sign < 1 / 2 then (1, (uniform_double r).2) else (-1, (uniform_double r).2)

/-- The new speed of one axis (lines 134-142):
`alpha_ * old + (1.0 - alpha_) * (speed + delta * uniform_double() * getSign())`,
with the uniform draw `u` and the sign `sg` already taken. -/
def newSpeed (alpha_ old_speed_ speed_ delta_ u : ℚ) (sg : Int) : ℚ :=
  (alpha_ * old_speed_) + (1 - alpha_) * (speed_ + delta_ * u * (sg : ℚ))

/-- Lines 134-147 of `update`: the six draws (for each axis the magnitude,
then the sign, the operands being evaluated left to right) and the new speeds,
which are saved in `old_speed_x_`, `old_speed_y_`, `old_speed_z_`. -/
def speedStep (s : UwDriftPosition) (r : RNG) : UwDriftPosition × RNG :=
  let ux := uniform_double r
  let sx := getSign ux.2
  let vx_ := newSpeed s.alpha_ s.old_speed_x_ s.speed_horizontal_ s.deltax_ ux.1 sx.1
  let uy := uniform_double sx.2
  let sy := getSign uy.2
  let vy_ := newSpeed s.alpha_ s.old_speed_y_ s.speed_longitudinal_ s.deltay_ uy.1 sy.1
  let uz := uniform_double sy.2
  let sz := getSign uz.2
  let vz_ := newSpeed s.alpha_ s.old_speed_z_ s.speed_vertical_ s.deltaz_ uz.1 sz.1
  ({ s with old_speed_x_ := vx_, old_speed_y_ := vy_, old_speed_z_ := vz_ }, sz.2)

/-- The candidate `newx_ = x_ + (vx_ * updateTime_)` (line 150), read after the
new speed has been saved in `old_speed_x_`. -/
def candX (s : UwDriftPosition) : ℚ := s.x_ + (s.old_speed_x_ * s.updateTime_)

/-- The candidate `newy_ = y_ + (vy_ * updateTime_)` (line 153). -/
def candY (s : UwDriftPosition) : ℚ := s.y_ + (s.old_speed_y_ * s.updateTime_)

/-- The candidate `newz_ = z_ + (vz_ * updateTime_)` (line 155). -/
def candZ (s : UwDriftPosition) : ℚ := s.z_ + (s.old_speed_z_ * s.updateTime_)

/-- Bounds check of the x axis (lines 161-177): the possibly reflected `newx_`
and the state with `old_speed_x_` and `speed_horizontal_` negated on a
rebounce. -/
def boundsX (s : UwDriftPosition) (newx_ : ℚ) : ℚ × UwDriftPosition :=
  if s.boundx_ = 1 then
    if newx_ > s.xFieldWidth_ then
      ((2 * s.xFieldWidth_) - newx_,
        { s with old_speed_x_ := -s.old_speed_x_, speed_horizontal_ := -s.speed_horizontal_ })
    else if newx_ < 0 then
      (-newx_,
        { s with old_speed_x_ := -s.old_speed_x_, speed_horizontal_ := -s.speed_horizontal_ })
    else (newx_, s)
  else (newx_, s)

/-- Bounds check of the y axis (lines 178-194). -/
def boundsY (s : UwDriftPosition) (newy_ : ℚ) : ℚ × UwDriftPosition :=
  if s.boundy_ = 1 then
    if newy_ > s.yFieldWidth_ then
      ((2 * s.yFieldWidth_) - newy_,
        { s with old_speed_y_ := -s.old_speed_y_, speed_longitudinal_ := -s.speed_longitudinal_ })
    else if newy_ < 0 then
      (-newy_,
        { s with old_speed_y_ := -s.old_speed_y_, speed_longitudinal_ := -s.speed_longitudinal_ })
    else (newy_, s)
  else (newy_, s)

/-- Bounds check of the z axis (lines 195-215): the field is `[-zFieldWidth_, 0]`. -/
def boundsZ (s : UwDriftPosition) (newz_ : ℚ) : ℚ × UwDriftPosition :=
  if s.boundz_ = 1 then
    if newz_ < (-s.zFieldWidth_) then
      ((-s.zFieldWidth_) - (newz_ + s.zFieldWidth_),
        { s with old_speed_z_ := -s.old_speed_z_, speed_vertical_ := -s.speed_vertical_ })
    else if newz_ > 0 then
      (-newz_,
        { s with old_speed_z_ := -s.old_speed_z_, speed_vertical_ := -s.speed_vertical_ })
    else (newz_, s)
  else (newz_, s)

/-- One iteration of the loop of `update` (lines 133-237): new speeds, the
three candidates, the three bounds checks in the order x, y, z, and the
assignment of the position. -/
def updateBody (w : UwDriftPosition × RNG) : UwDriftPosition × RNG :=
  let s0 := (speedStep w.1 w.2).1
  let bx := boundsX s0 (candX s0)
  let by_ := boundsY bx.2 (candY s0)
  let bz := boundsZ by_.2 (candZ s0)
  ({ bz.2 with x_ := bx.1, y_ := by_.1, z_ := bz.1 }, (speedStep w.1 w.2).2)

/-- The `for` loop of `update` (line 132) from the loop variable `t`: while
`t < now` run the body and add `updateTime_` to `t`. Returns the final `t` and
the state, or `none` when the fuel is used up before the loop exits. The sum
`t + updateTime_` is exact here; `updateLoopD` rounds it to a double. -/
def updateLoop (now : ℚ) : Nat → ℚ → UwDriftPosition × RNG → Option (ℚ × (UwDriftPosition × RNG))
  | 0, t, w => if t < now then none else some (t, w)
  | fuel + 1, t, w =>
    if t < now then updateLoop now fuel (t + (updateBody w).1.updateTime_) (updateBody w)
    else some (t, w)

/-- The method `UwDriftPosition::update` (lines 127-245): the loop starts at
`nextUpdateTime_` and its final `t` is stored in `nextUpdateTime_`. -/
def update (fuel : Nat) (now : ℚ) (w : UwDriftPosition × RNG) : Option (UwDriftPosition × RNG) :=
  (updateLoop now fuel w.1.nextUpdateTime_ w).map
    (fun p => ({ p.2.1 with nextUpdateTime_ := p.1 }, p.2.2))

/-- The method `UwDriftPosition::getX` (lines 259-266); `now` is the value of
`Scheduler::instance().clock()`. Returns the coordinate and the state left. -/
def getX (fuel : Nat) (now : ℚ) (w : UwDriftPosition × RNG) : Option (ℚ × (UwDriftPosition × RNG)) :=
  if now > w.1.nextUpdateTime_ then (update fuel now w).map (fun w1 => (w1.1.x_, w1))
  else some (w.1.x_, w)

/-- The method `UwDriftPosition::getY` (lines 268-275). -/
def getY (fuel : Nat) (now : ℚ) (w : UwDriftPosition × RNG) : Option (ℚ × (UwDriftPosition × RNG)) :=
  if now > w.1.nextUpdateTime_ then (update fuel now w).map (fun w1 => (w1.1.y_, w1))
  else some (w.1.y_, w)

/-- The method `UwDriftPosition::getZ` (lines 277-284). -/
def getZ (fuel : Nat) (now : ℚ) (w : UwDriftPosition × RNG) : Option (ℚ × (UwDriftPosition × RNG)) :=
  if now > w.1.nextUpdateTime_ then (update fuel now w).map (fun w1 => (w1.1.z_, w1))
  else some (w.1.z_, w)

/-- Rounding of a rational to the nearest integer, a tie going to the even
neighbour. -/
def roundHalfEven (q : ℚ) : ℤ :=
  if q - ⌊q⌋ < 1 / 2 then ⌊q⌋
  else if 1 / 2 < q - ⌊q⌋ then ⌊q⌋ + 1
  else if ⌊q⌋ % 2 = 0 then ⌊q⌋ else ⌊q⌋ + 1

/-- The exponent of the spacing of the doubles around `x`: 52 below the
exponent of `x` (a 53-bit significand), and `-1074` for the subnormal
numbers. -/
def quantumExp (x : ℚ) : ℤ := max (Int.log 2 |x| - 52) (-1074)

/-- The double nearest to `x` (IEEE 754 binary64, round to nearest, ties to
even): `x` is rounded to a multiple of the spacing `2 ^ quantumExp x`. The
exponent has no upper limit here: a result of magnitude `2 ^ 1024` or more,
which is an infinity in the program, is left out of the model. -/
def roundDouble (x : ℚ) : ℚ :=
  (roundHalfEven (x / (2 : ℚ) ^ quantumExp x) : ℚ) * (2 : ℚ) ^ quantumExp x

/-- The loop variable `t` of `update` after `j` executions of
`t += updateTime_` from the start value `t0`, each sum rounded to a double. -/
def loopVar (dt t0 : ℚ) : Nat → ℚ
  | 0 => t0
  | j + 1 => roundDouble (loopVar dt t0 j + dt)

/-- The `for` loop of `update` (line 132) with the loop variable in double
arithmetic: `t += updateTime_` stores the double nearest to the sum. The loop
body is `updateBody`; the comparison `t < now` is exact. -/
def updateLoopD (now : ℚ) :
    Nat → ℚ → UwDriftPosition × RNG → Option (ℚ × (UwDriftPosition × RNG))
  | 0, t, w => if t < now then none else some (t, w)
  | fuel + 1, t, w =>
    if t < now then
      updateLoopD now fuel (roundDouble (t + (updateBody w).1.updateTime_)) (updateBody w)
    else some (t, w)

/-- The method `UwDriftPosition::update` (lines 127-245) with the loop
variable in double arithmetic. -/
def updateD (fuel : Nat) (now : ℚ) (w : UwDriftPosition × RNG) :
    Option (UwDriftPosition × RNG) :=
  (updateLoopD now fuel w.1.nextUpdateTime_ w).map
    (fun p => ({ p.2.1 with nextUpdateTime_ := p.1 }, p.2.2))

/-- The values the host gives to the variables the constructor binds; a field
left out keeps the value of the member initialiser list (lines 68-86). `x_`,
`y_`, `z_` are the coordinates left by the base-class constructor
`Position()`. -/
structure Bindings where
  x_ : ℚ := 0
  y_ : ℚ := 0
  z_ : ℚ := 0
  xFieldWidth_ : ℚ := 0
  yFieldWidth_ : ℚ := 0
  zFieldWidth_ : ℚ := 0
  boundx_ : ℚ := 0
  boundy_ : ℚ := 1
  boundz_ : ℚ := 1
  speed_horizontal_ : ℚ := 0
  speed_longitudinal_ : ℚ := 0
  speed_vertical_ : ℚ := 0
  alpha_ : ℚ := 0
  deltax_ : ℚ := 0
  deltay_ : ℚ := 0
  deltaz_ : ℚ := 0
  starting_speed_x_ : ℚ := 0
  starting_speed_y_ : ℚ := 0
  starting_speed_z_ : ℚ := 0
  updateTime_ : ℚ := 0

/-- The constructor `UwDriftPosition::UwDriftPosition` (lines 66-115): every
bound variable takes its value as it is, `nextUpdateTime_` is `0.0`, and the
three `old_speed_*_` are set from the starting speeds (lines 108-110). There is
no check of any value and no failure path. -/
def UwDriftPosition.UwDriftPosition (b : Bindings) : UwDriftPosition :=
  { x_ := b.x_, y_ := b.y_, z_ := b.z_,
    xFieldWidth_ := b.xFieldWidth_, yFieldWidth_ := b.yFieldWidth_,
    zFieldWidth_ := b.zFieldWidth_,
    boundx_ := b.boundx_, boundy_ := b.boundy_, boundz_ := b.boundz_,
    speed_horizontal_ := b.speed_horizontal_,
    speed_longitudinal_ := b.speed_longitudinal_,
    speed_vertical_ := b.speed_vertical_,
    alpha_ := b.alpha_, deltax_ := b.deltax_, deltay_ := b.deltay_, deltaz_ := b.deltaz_,
    starting_speed_x_ := b.starting_speed_x_,
    starting_speed_y_ := b.starting_speed_y_,
    starting_speed_z_ := b.starting_speed_z_,
    updateTime_ := b.updateTime_,
    nextUpdateTime_ := 0,
    old_speed_x_ := b.starting_speed_x_,
    old_speed_y_ := b.starting_speed_y_,
    old_speed_z_ := b.starting_speed_z_ }

/-- A generator whose every draw is `1/4` (so every sign is `+1`). -/
def quarterRNG : RNG := { draws := fun _ => 1 / 4, pos := 0 }

/-- A node at `(5, 5, -5)` in a field of width `100` on every axis, all bounds
on, step `1`, caught up to time `0`. -/
def sampleState : UwDriftPosition :=
  UwDriftPosition.UwDriftPosition
    { x_ := 5, y_ := 5, z_ := -5, xFieldWidth_ := 100, yFieldWidth_ := 100,
      zFieldWidth_ := 100, boundx_ := 1, boundy_ := 1, boundz_ := 1,
      speed_horizontal_ := 1, speed_longitudinal_ := 1, speed_vertical_ := 1,
      alpha_ := 1 / 2, deltax_ := 1, deltay_ := 1, deltaz_ := 1,
      starting_speed_x_ := 2, starting_speed_y_ := 2, starting_speed_z_ := 2,
      updateTime_ := 1 }

/-! ## The step in the words of the specification

The definitions of this section restate §4.1 of the specification; the
theorems below compare them with the embedding of the source. -/

/-- The sign rule of the specification: `+1` for a draw below `0.5`, else `-1`. -/
def specSign (d : ℚ) : ℚ := if d < 1 / 2 then 1 else -1

/-- The velocity of the specification (§4.1 step 2):
`v = alpha * old_speed + (1 - alpha) * (bias + jitter * uniform_draw * sign)`. -/
def specV (alpha old bias jitter u sg : ℚ) : ℚ :=
  alpha * old + (1 - alpha) * (bias + jitter * u * sg)

/-- The velocity `v_x` of a step from state `s`: the magnitude is the next
draw of `r`, the sign comes from the draw after it. -/
def specVx (s : UwDriftPosition) (r : RNG) : ℚ :=
  specV s.alpha_ s.old_speed_x_ s.speed_horizontal_ s.deltax_
    (r.draws r.pos) (specSign (r.draws (r.pos + 1)))

/-- The velocity `v_y` of a step: third and fourth draw. -/
def specVy (s : UwDriftPosition) (r : RNG) : ℚ :=
  specV s.alpha_ s.old_speed_y_ s.speed_longitudinal_ s.deltay_
    (r.draws (r.pos + 2)) (specSign (r.draws (r.pos + 3)))

/-- The velocity `v_z` of a step: fifth and sixth draw. -/
def specVz (s : UwDriftPosition) (r : RNG) : ℚ :=
  specV s.alpha_ s.old_speed_z_ s.speed_vertical_ s.deltaz_
    (r.draws (r.pos + 4)) (specSign (r.draws (r.pos + 5)))

/-- The candidate `new_x = x + v_x * update_interval` of a step (§4.1 step 4). -/
def specCandX (s : UwDriftPosition) (r : RNG) : ℚ := s.x_ + specVx s r * s.updateTime_

/-- The candidate `new_y` of a step. -/
def specCandY (s : UwDriftPosition) (r : RNG) : ℚ := s.y_ + specVy s r * s.updateTime_

/-- The candidate `new_z` of a step. -/
def specCandZ (s : UwDriftPosition) (r : RNG) : ℚ := s.z_ + specVz s r * s.updateTime_

/-- Reflection of a candidate on an x or y axis (§4.1 step 5): above the field
width `W` it becomes `2 * W - c`, below `0` it becomes `-c`, when the bound flag
is `1`. -/
def foldXY (bound W c : ℚ) : ℚ :=
  if bound = 1 ∧ c > W then 2 * W - c else if bound = 1 ∧ c < 0 then -c else c

/-- The candidate `c` is reflected on an x or y axis. -/
def bouncesXY (bound W c : ℚ) : Prop := bound = 1 ∧ (c > W ∨ c < 0)

instance instDecidableBouncesXY (bound W c : ℚ) : Decidable (bouncesXY bound W c) := by
  unfold bouncesXY
  infer_instance

/-- Reflection of a candidate on the z axis (§4.1 step 5): below `-W` it
becomes `-W - (c + W)`, above `0` it becomes `-c`, when the bound flag is `1`. -/
def foldZ (bound W c : ℚ) : ℚ :=
  if bound = 1 ∧ c < -W then -W - (c + W) else if bound = 1 ∧ c > 0 then -c else c

/-- The candidate `c` is reflected on the z axis. -/
def bouncesZ (bound W c : ℚ) : Prop := bound = 1 ∧ (c < -W ∨ c > 0)

instance instDecidableBouncesZ (bound W c : ℚ) : Decidable (bouncesZ bound W c) := by
  unfold bouncesZ
  infer_instance

/-- A value negated when the condition holds: the effect of a rebounce on a
speed and on a bias. -/
def negIf (p : Prop) [Decidable p] (v : ℚ) : ℚ := if p then -v else v

/-- A node with step `1` that is already advanced to time `10`. -/
def aheadState : UwDriftPosition := { sampleState with nextUpdateTime_ := 10 }

/-- A node at `x = 95` moving at speed `25` with `alpha_ = 1` in a field of
width `100` with the x bound on: the next candidate is `120`. -/
def bounceState : UwDriftPosition :=
  UwDriftPosition.UwDriftPosition
    { x_ := 95, xFieldWidth_ := 100, boundx_ := 1, boundy_ := 0, boundz_ := 0, alpha_ := 1,
      starting_speed_x_ := 25, updateTime_ := 1 }

/-- A node at `z = -5` rising at speed `15` with `alpha_ = 1`, z field width
`50`, z bound on: the next candidate is `10`. -/
def surfaceState : UwDriftPosition :=
  UwDriftPosition.UwDriftPosition
    { z_ := -5, zFieldWidth_ := 50, boundx_ := 0, boundy_ := 0, boundz_ := 1, alpha_ := 1,
      starting_speed_z_ := 15, updateTime_ := 1 }

/-- A node at `z = -45` sinking at speed `-25` with `alpha_ = 1`, z field
width `50`, z bound on: the next candidate is `-70`. -/
def bottomState : UwDriftPosition :=
  UwDriftPosition.UwDriftPosition
    { z_ := -45, zFieldWidth_ := 50, boundx_ := 0, boundy_ := 0, boundz_ := 1, alpha_ := 1,
      starting_speed_z_ := -25, updateTime_ := 1 }

/-- The state of the end-to-end scenario of the specification (§8.8); the
fields the scenario does not give keep the constructor defaults. -/
def scenarioState : UwDriftPosition :=
  UwDriftPosition.UwDriftPosition
    { xFieldWidth_ := 1000, yFieldWidth_ := 1000, zFieldWidth_ := 0,
      boundx_ := 1, boundy_ := 0, boundz_ := 0, speed_horizontal_ := 0, alpha_ := 0,
      deltax_ := 0, updateTime_ := 1, starting_speed_x_ := 10, x_ := 995 }

/-- A node about to leave its field on all three axes within one step:
candidates `120` (x, width `100`), `-10` (y, width `100`) and `-70`
(z, width `50`). -/
def cornerState : UwDriftPosition :=
  UwDriftPosition.UwDriftPosition
    { x_ := 95, y_ := 5, z_ := -45, xFieldWidth_ := 100, yFieldWidth_ := 100,
      zFieldWidth_ := 50, boundx_ := 1, boundy_ := 1, boundz_ := 1, alpha_ := 1,
      starting_speed_x_ := 25, starting_speed_y_ := -15, starting_speed_z_ := -25,
      updateTime_ := 1 }

/-- A node without memory (`alpha_ = 0`) with a bias and a jitter on every
axis. -/
def forgetfulState : UwDriftPosition :=
  UwDriftPosition.UwDriftPosition
    { x_ := 5, y_ := 5, z_ := -5, xFieldWidth_ := 100, yFieldWidth_ := 100,
      zFieldWidth_ := 100, boundx_ := 1, boundy_ := 1, boundz_ := 1,
      speed_horizontal_ := 1, speed_longitudinal_ := 2, speed_vertical_ := -1,
      alpha_ := 0, deltax_ := 4, deltay_ := 4, deltaz_ := 4,
      starting_speed_x_ := 7, starting_speed_y_ := 7, starting_speed_z_ := 7,
      updateTime_ := 1 }

/-- The model built with no binding at all: the member initialiser list. -/
def defaultState : UwDriftPosition := UwDriftPosition.UwDriftPosition {}

/-- A generator whose every draw is exactly `1/2` (so every sign is `-1`). -/
def halfRNG : RNG := { draws := fun _ => 1 / 2, pos := 0 }

/-- A node in the middle of a field of width `100` with the x bound on, moving
at speed `300` with `alpha_ = 1` and step `1`: the next candidate is `350`. -/
def overshootState : UwDriftPosition :=
  UwDriftPosition.UwDriftPosition
    { x_ := 50, xFieldWidth_ := 100, boundx_ := 1, boundy_ := 0, boundz_ := 0, alpha_ := 1,
      starting_speed_x_ := 300, updateTime_ := 1 }

/-- A node at `x = 95` without memory (`alpha_ = 0`), horizontal bias `25`, no
jitter, previous speed `10`, field width `100`, x bound on, step `1`: the next
speed is `25` and the next candidate is `120`. -/
def biasedBounceState : UwDriftPosition :=
  UwDriftPosition.UwDriftPosition
    { x_ := 95, xFieldWidth_ := 100, boundx_ := 1, boundy_ := 0, boundz_ := 0, alpha_ := 0,
      speed_horizontal_ := 25, deltax_ := 0, starting_speed_x_ := 10, updateTime_ := 1 }

/-- Two states agree on everything the x axis of a loop iteration reads:
`alpha_`, `updateTime_` and the x fields. -/
def agreeX (a b : UwDriftPosition) : Prop :=
  a.alpha_ = b.alpha_ ∧ a.updateTime_ = b.updateTime_ ∧ a.x_ = b.x_ ∧
  a.old_speed_x_ = b.old_speed_x_ ∧ a.speed_horizontal_ = b.speed_horizontal_ ∧
  a.xFieldWidth_ = b.xFieldWidth_ ∧ a.boundx_ = b.boundx_ ∧ a.deltax_ = b.deltax_

/-- Two states agree on everything the y axis of a loop iteration reads. -/
def agreeY (a b : UwDriftPosition) : Prop :=
  a.alpha_ = b.alpha_ ∧ a.updateTime_ = b.updateTime_ ∧ a.y_ = b.y_ ∧
  a.old_speed_y_ = b.old_speed_y_ ∧ a.speed_longitudinal_ = b.speed_longitudinal_ ∧
  a.yFieldWidth_ = b.yFieldWidth_ ∧ a.boundy_ = b.boundy_ ∧ a.deltay_ = b.deltay_

/-- Two states agree on everything the z axis of a loop iteration reads. -/
def agreeZ (a b : UwDriftPosition) : Prop :=
  a.alpha_ = b.alpha_ ∧ a.updateTime_ = b.updateTime_ ∧ a.z_ = b.z_ ∧
  a.old_speed_z_ = b.old_speed_z_ ∧ a.speed_vertical_ = b.speed_vertical_ ∧
  a.zFieldWidth_ = b.zFieldWidth_ ∧ a.boundz_ = b.boundz_ ∧ a.deltaz_ = b.deltaz_

/-- Two generators give the same magnitude draw and the same sign draw to one
axis in every coming loop iteration; `off` is the place of the axis among the
six draws of an iteration (`0` for x, `2` for y, `4` for z). -/
def sameDraws (off : Nat) (r1 r2 : RNG) : Prop :=
  ∀ i : Nat, r1.draws (r1.pos + 6 * i + off) = r2.draws (r2.pos + 6 * i + off) ∧
    r1.draws (r1.pos + 6 * i + off + 1) = r2.draws (r2.pos + 6 * i + off + 1)

/-- The values of the x axis that a loop iteration computes. -/
def viewX (s : UwDriftPosition) : ℚ × ℚ × ℚ := (s.x_, s.old_speed_x_, s.speed_horizontal_)

/-- The values of the y axis that a loop iteration computes. -/
def viewY (s : UwDriftPosition) : ℚ × ℚ × ℚ := (s.y_, s.old_speed_y_, s.speed_longitudinal_)

/-- The values of the z axis that a loop iteration computes. -/
def viewZ (s : UwDriftPosition) : ℚ × ℚ × ℚ := (s.z_, s.old_speed_z_, s.speed_vertical_)

/-- The node of `sampleState` with another y and z axis: other position, speed,
bias, jitter, field width, and both bounds off. -/
def otherYZState : UwDriftPosition :=
  { sampleState with
    y_ := 50, z_ := -70, yFieldWidth_ := 60, zFieldWidth_ := 80, boundy_ := 0, boundz_ := 0,
    speed_longitudinal_ := -3, speed_vertical_ := 4, deltay_ := 7, deltaz_ := 9,
    old_speed_y_ := 11, old_speed_z_ := -13 }

/-- The node of `sampleState` with another x axis. -/
def otherXState : UwDriftPosition :=
  { sampleState with
    x_ := 70, xFieldWidth_ := 80, boundx_ := 0, speed_horizontal_ := -3, deltax_ := 7,
    old_speed_x_ := 11 }

/-- A generator that agrees with `quarterRNG` on the x draws only. -/
def otherYZRNG : RNG := { draws := fun i => if i % 6 = 0 ∨ i % 6 = 1 then 1 / 4 else 3 / 4, pos := 0 }

/-- A generator that agrees with `quarterRNG` on the y and z draws only. -/
def otherXRNG : RNG := { draws := fun i => if i % 6 = 0 ∨ i % 6 = 1 then 3 / 4 else 1 / 4, pos := 0 }

/-- The double nearest to `0.1`: `3602879701896397 / 2 ^ 55`. -/
def dblTenth : ℚ := 3602879701896397 / 36028797018963968

/-- A node caught up to time `0` whose step is the double `0.1`. -/
def tenthState : UwDriftPosition := { sampleState with updateTime_ := dblTenth }

/-- The double `0.30000000000000004`: `5404319552844596 / 2 ^ 54`, the double
next above the double nearest to `0.3`. -/
def dblThreeTenthsUp : ℚ := 5404319552844596 / 18014398509481984

/-- The double `0.20000000000000004`: `7205759403792795 / 2 ^ 55`, the double
next above the double `0.2`. -/
def dblTwoTenthsUp : ℚ := 7205759403792795 / 36028797018963968

/-! ## Frame lemmas of one loop iteration -/

theorem boundsX_updateTime (s : UwDriftPosition) (c : ℚ) :
    (boundsX s c).2.updateTime_ = s.updateTime_ := by
  unfold boundsX
  split_ifs <;> rfl

theorem boundsY_updateTime (s : UwDriftPosition) (c : ℚ) :
    (boundsY s c).2.updateTime_ = s.updateTime_ := by
  unfold boundsY
  split_ifs <;> rfl

theorem boundsZ_updateTime (s : UwDriftPosition) (c : ℚ) :
    (boundsZ s c).2.updateTime_ = s.updateTime_ := by
  unfold boundsZ
  split_ifs <;> rfl

theorem updateBody_updateTime (w : UwDriftPosition × RNG) :
    (updateBody w).1.updateTime_ = w.1.updateTime_ := by
  show (boundsZ _ _).2.updateTime_ = _
  rw [boundsZ_updateTime, boundsY_updateTime, boundsX_updateTime]
  rfl

theorem updateBody_pos (w : UwDriftPosition × RNG) :
    (updateBody w).2.pos = w.2.pos + 6 := by
  simp only [updateBody, speedStep, getSign, uniform_double]
  split_ifs <;> rfl

theorem iterate_updateTime (k : Nat) (w : UwDriftPosition × RNG) :
    (updateBody^[k] w).1.updateTime_ = w.1.updateTime_ := by
  induction k generalizing w with
  | zero => rfl
  | succ k ih => rw [Function.iterate_succ_apply, ih, updateBody_updateTime]

theorem iterate_pos (k : Nat) (w : UwDriftPosition × RNG) :
    (updateBody^[k] w).2.pos = w.2.pos + 6 * k := by
  induction k generalizing w with
  | zero => rfl
  | succ k ih => rw [Function.iterate_succ_apply, ih, updateBody_pos]; ring

/-- The loop run from `t`: when `k` is the first index with
`now ≤ t + k * updateTime_`, any fuel of at least `k` makes the loop run the
body `k` times and exit with the loop variable `t + k * updateTime_`. -/
theorem updateLoop_steps (now : ℚ) (k : Nat) :
    ∀ (fuel : Nat) (t : ℚ) (w : UwDriftPosition × RNG), k ≤ fuel →
      (∀ j : Nat, j < k → t + j * w.1.updateTime_ < now) →
      now ≤ t + k * w.1.updateTime_ →
      updateLoop now fuel t w = some (t + k * w.1.updateTime_, updateBody^[k] w) := by
  induction k with
  | zero =>
    intro fuel t w _ _ hk
    have ht : ¬ t < now := by simpa using hk
    cases fuel <;> simp [updateLoop, ht]
  | succ k ih =>
    intro fuel t w hf hlt hk
    obtain ⟨f, rfl⟩ : ∃ f, fuel = f + 1 := ⟨fuel - 1, by omega⟩
    have ht : t < now := by simpa using hlt 0 (Nat.succ_pos k)
    have hu := updateBody_updateTime w
    rw [updateLoop, if_pos ht, ih f _ (updateBody w) (by omega)]
    · rw [Function.iterate_succ_apply, hu]
      congr 2
      push_cast
      ring
    · intro j hj
      have := hlt (j + 1) (by omega)
      rw [hu]
      push_cast at this
      linarith
    · rw [hu]
      push_cast at hk
      linarith

theorem negIf_pos {p : Prop} [Decidable p] (h : p) (v : ℚ) : negIf p v = -v := by
  simp [negIf, h]

theorem negIf_neg {p : Prop} [Decidable p] (h : ¬ p) (v : ℚ) : negIf p v = v := by
  simp [negIf, h]

theorem foldXY_high {bound W c : ℚ} (hb : bound = 1) (h1 : c > W) :
    foldXY bound W c = 2 * W - c := by
  unfold foldXY
  rw [if_pos ⟨hb, h1⟩]

theorem foldXY_low {bound W c : ℚ} (hb : bound = 1) (h1 : ¬ c > W) (h2 : c < 0) :
    foldXY bound W c = -c := by
  unfold foldXY
  rw [if_neg (fun h => h1 h.2), if_pos ⟨hb, h2⟩]

theorem foldXY_none {bound W c : ℚ} (hn : ¬ (bound = 1 ∧ (c > W ∨ c < 0))) :
    foldXY bound W c = c := by
  unfold foldXY
  rw [if_neg (fun h => hn ⟨h.1, Or.inl h.2⟩), if_neg (fun h => hn ⟨h.1, Or.inr h.2⟩)]

theorem foldZ_low {bound W c : ℚ} (hb : bound = 1) (h1 : c < -W) :
    foldZ bound W c = -W - (c + W) := by
  unfold foldZ
  rw [if_pos ⟨hb, h1⟩]

theorem foldZ_high {bound W c : ℚ} (hb : bound = 1) (h1 : ¬ c < -W) (h2 : c > 0) :
    foldZ bound W c = -c := by
  unfold foldZ
  rw [if_neg (fun h => h1 h.2), if_pos ⟨hb, h2⟩]

theorem foldZ_none {bound W c : ℚ} (hn : ¬ (bound = 1 ∧ (c < -W ∨ c > 0))) :
    foldZ bound W c = c := by
  unfold foldZ
  rw [if_neg (fun h => hn ⟨h.1, Or.inl h.2⟩), if_neg (fun h => hn ⟨h.1, Or.inr h.2⟩)]

/-! ## The loop body, field by field -/

theorem getSign_fst (r : RNG) : ((getSign r).1 : ℚ) = specSign (r.draws r.pos) := by
  simp only [getSign, uniform_double, specSign]
  split_ifs <;> simp

theorem getSign_snd (r : RNG) : (getSign r).2 = { r with pos := r.pos + 1 } := by
  simp only [getSign, uniform_double]
  split_ifs <;> rfl

theorem speedStep_eq (s : UwDriftPosition) (r : RNG) :
    speedStep s r =
      ({ s with old_speed_x_ := specVx s r, old_speed_y_ := specVy s r,
                old_speed_z_ := specVz s r }, { r with pos := r.pos + 6 }) := by
  simp only [speedStep, newSpeed, getSign_fst, getSign_snd, uniform_double, specVx, specVy,
    specVz, specV]

theorem boundsX_eq (s : UwDriftPosition) (c : ℚ) :
    boundsX s c =
      (foldXY s.boundx_ s.xFieldWidth_ c,
        { s with
          old_speed_x_ := negIf (bouncesXY s.boundx_ s.xFieldWidth_ c) s.old_speed_x_,
          speed_horizontal_ :=
            negIf (bouncesXY s.boundx_ s.xFieldWidth_ c) s.speed_horizontal_ }) := by
  by_cases hb : s.boundx_ = 1
  · by_cases h1 : c > s.xFieldWidth_
    · have hf : foldXY s.boundx_ s.xFieldWidth_ c = 2 * s.xFieldWidth_ - c := by
        simp [foldXY, hb, h1]
      have hn : bouncesXY s.boundx_ s.xFieldWidth_ c := ⟨hb, Or.inl h1⟩
      simp only [boundsX, negIf, if_pos hb, if_pos h1, hf, if_pos hn]
    · by_cases h2 : c < 0
      · have hf : foldXY s.boundx_ s.xFieldWidth_ c = -c := by
          simp [foldXY, hb, h1, h2]
        have hn : bouncesXY s.boundx_ s.xFieldWidth_ c := ⟨hb, Or.inr h2⟩
        simp only [boundsX, negIf, if_pos hb, if_neg h1, if_pos h2, hf, if_pos hn]
      · have hf : foldXY s.boundx_ s.xFieldWidth_ c = c := by
          simp [foldXY, hb, h1, h2]
        have hn : ¬ bouncesXY s.boundx_ s.xFieldWidth_ c := by
          rintro ⟨_, h | h⟩
          · exact h1 h
          · exact h2 h
        simp only [boundsX, negIf, if_pos hb, if_neg h1, if_neg h2, hf, if_neg hn]
  · have hf : foldXY s.boundx_ s.xFieldWidth_ c = c := by
      simp [foldXY, hb]
    have hn : ¬ bouncesXY s.boundx_ s.xFieldWidth_ c := fun h => hb h.1
    simp only [boundsX, negIf, if_neg hb, hf, if_neg hn]

theorem boundsY_eq (s : UwDriftPosition) (c : ℚ) :
    boundsY s c =
      (foldXY s.boundy_ s.yFieldWidth_ c,
        { s with
          old_speed_y_ := negIf (bouncesXY s.boundy_ s.yFieldWidth_ c) s.old_speed_y_,
          speed_longitudinal_ :=
            negIf (bouncesXY s.boundy_ s.yFieldWidth_ c) s.speed_longitudinal_ }) := by
  by_cases hb : s.boundy_ = 1
  · by_cases h1 : c > s.yFieldWidth_
    · have hf : foldXY s.boundy_ s.yFieldWidth_ c = 2 * s.yFieldWidth_ - c := by
        simp [foldXY, hb, h1]
      have hn : bouncesXY s.boundy_ s.yFieldWidth_ c := ⟨hb, Or.inl h1⟩
      simp only [boundsY, negIf, if_pos hb, if_pos h1, hf, if_pos hn]
    · by_cases h2 : c < 0
      · have hf : foldXY s.boundy_ s.yFieldWidth_ c = -c := by
          simp [foldXY, hb, h1, h2]
        have hn : bouncesXY s.boundy_ s.yFieldWidth_ c := ⟨hb, Or.inr h2⟩
        simp only [boundsY, negIf, if_pos hb, if_neg h1, if_pos h2, hf, if_pos hn]
      · have hf : foldXY s.boundy_ s.yFieldWidth_ c = c := by
          simp [foldXY, hb, h1, h2]
        have hn : ¬ bouncesXY s.boundy_ s.yFieldWidth_ c := by
          rintro ⟨_, h | h⟩
          · exact h1 h
          · exact h2 h
        simp only [boundsY, negIf, if_pos hb, if_neg h1, if_neg h2, hf, if_neg hn]
  · have hf : foldXY s.boundy_ s.yFieldWidth_ c = c := by
      simp [foldXY, hb]
    have hn : ¬ bouncesXY s.boundy_ s.yFieldWidth_ c := fun h => hb h.1
    simp only [boundsY, negIf, if_neg hb, hf, if_neg hn]

theorem boundsZ_eq (s : UwDriftPosition) (c : ℚ) :
    boundsZ s c =
      (foldZ s.boundz_ s.zFieldWidth_ c,
        { s with
          old_speed_z_ := negIf (bouncesZ s.boundz_ s.zFieldWidth_ c) s.old_speed_z_,
          speed_vertical_ :=
            negIf (bouncesZ s.boundz_ s.zFieldWidth_ c) s.speed_vertical_ }) := by
  by_cases hb : s.boundz_ = 1
  · by_cases h1 : c < -s.zFieldWidth_
    · have hf : foldZ s.boundz_ s.zFieldWidth_ c = -s.zFieldWidth_ - (c + s.zFieldWidth_) := by
        simp [foldZ, hb, h1]
      have hn : bouncesZ s.boundz_ s.zFieldWidth_ c := ⟨hb, Or.inl h1⟩
      simp only [boundsZ, negIf, if_pos hb, if_pos h1, hf, if_pos hn]
    · by_cases h2 : c > 0
      · have hf : foldZ s.boundz_ s.zFieldWidth_ c = -c := by
          simp [foldZ, hb, h1, h2]
        have hn : bouncesZ s.boundz_ s.zFieldWidth_ c := ⟨hb, Or.inr h2⟩
        simp only [boundsZ, negIf, if_pos hb, if_neg h1, if_pos h2, hf, if_pos hn]
      · have hf : foldZ s.boundz_ s.zFieldWidth_ c = c := by
          simp [foldZ, hb, h1, h2]
        have hn : ¬ bouncesZ s.boundz_ s.zFieldWidth_ c := by
          rintro ⟨_, h | h⟩
          · exact h1 h
          · exact h2 h
        simp only [boundsZ, negIf, if_pos hb, if_neg h1, if_neg h2, hf, if_neg hn]
  · have hf : foldZ s.boundz_ s.zFieldWidth_ c = c := by
      simp [foldZ, hb]
    have hn : ¬ bouncesZ s.boundz_ s.zFieldWidth_ c := fun h => hb h.1
    simp only [boundsZ, negIf, if_neg hb, hf, if_neg hn]

/-- One loop iteration as a single record update: each axis gets its folded
candidate, its new speed and its bias, the last two negated on a rebounce; six
draws are consumed; nothing else changes. -/
theorem updateBody_eq (s : UwDriftPosition) (r : RNG) :
    updateBody (s, r) =
      ({ s with
          x_ := foldXY s.boundx_ s.xFieldWidth_ (specCandX s r),
          y_ := foldXY s.boundy_ s.yFieldWidth_ (specCandY s r),
          z_ := foldZ s.boundz_ s.zFieldWidth_ (specCandZ s r),
          old_speed_x_ := negIf (bouncesXY s.boundx_ s.xFieldWidth_ (specCandX s r)) (specVx s r),
          old_speed_y_ := negIf (bouncesXY s.boundy_ s.yFieldWidth_ (specCandY s r)) (specVy s r),
          old_speed_z_ := negIf (bouncesZ s.boundz_ s.zFieldWidth_ (specCandZ s r)) (specVz s r),
          speed_horizontal_ :=
            negIf (bouncesXY s.boundx_ s.xFieldWidth_ (specCandX s r)) s.speed_horizontal_,
          speed_longitudinal_ :=
            negIf (bouncesXY s.boundy_ s.yFieldWidth_ (specCandY s r)) s.speed_longitudinal_,
          speed_vertical_ :=
            negIf (bouncesZ s.boundz_ s.zFieldWidth_ (specCandZ s r)) s.speed_vertical_ },
        { r with pos := r.pos + 6 }) := by
  simp only [updateBody, speedStep_eq, boundsX_eq, boundsY_eq, boundsZ_eq, candX, candY, candZ,
    specCandX, specCandY, specCandZ]

/-! ## Step quantization -/

/-- A call of `update` that needs exactly one loop iteration. -/
theorem update_one_step (s : UwDriftPosition) (r : RNG) (now : ℚ)
    (h1 : s.nextUpdateTime_ < now) (h2 : now ≤ s.nextUpdateTime_ + s.updateTime_)
    (fuel : Nat) (hf : 1 ≤ fuel) :
    update fuel now (s, r) =
      some ({ (updateBody (s, r)).1 with nextUpdateTime_ := s.nextUpdateTime_ + s.updateTime_ },
            (updateBody (s, r)).2) := by
  have hl := updateLoop_steps now 1 fuel s.nextUpdateTime_ (s, r) hf
    (fun j hj => by
      have hj0 : j = 0 := by omega
      subst hj0
      simpa using h1)
    (by simpa using h2)
  simp only [update, hl, Option.map_some', Function.iterate_one, Nat.cast_one, one_mul]

/-- With a step `<= 0` the loop never exits once `t < now`: whatever the
fuel, it is used up. -/
theorem updateLoop_diverges (now : ℚ) :
    ∀ (fuel : Nat) (t : ℚ) (w : UwDriftPosition × RNG),
      w.1.updateTime_ ≤ 0 → t < now → updateLoop now fuel t w = none := by
  intro fuel
  induction fuel with
  | zero =>
    intro t w _ ht
    simp [updateLoop, ht]
  | succ f ih =>
    intro t w h ht
    have hu := updateBody_updateTime w
    rw [updateLoop, if_pos ht]
    apply ih
    · rw [hu]
      exact h
    · rw [hu]
      linarith

/-- C3: when `now <= nextUpdateTime_`, each of `getX`, `getY`, `getZ` returns
the current coordinate and leaves the whole state and the generator as they
were (no draw is consumed), whatever the fuel. -/
theorem getters_noop_when_caught_up (fuel : Nat) (now : ℚ) (s : UwDriftPosition) (r : RNG)
    (h : now ≤ s.nextUpdateTime_) :
    getX fuel now (s, r) = some (s.x_, (s, r)) ∧
    getY fuel now (s, r) = some (s.y_, (s, r)) ∧
    getZ fuel now (s, r) = some (s.z_, (s, r)) := by
  have hn : ¬ now > s.nextUpdateTime_ := not_lt.mpr h
  simp [getX, getY, getZ, hn]

/-- C3 at a concrete input: `aheadState` (advanced to `10`) asked at time `7`. -/
theorem getters_noop_when_caught_up_witness :
    (7 : ℚ) ≤ aheadState.nextUpdateTime_ ∧
    (getX 0 7 (aheadState, quarterRNG) = some (aheadState.x_, (aheadState, quarterRNG)) ∧
     getY 0 7 (aheadState, quarterRNG) = some (aheadState.y_, (aheadState, quarterRNG)) ∧
     getZ 0 7 (aheadState, quarterRNG) = some (aheadState.z_, (aheadState, quarterRNG))) :=
  ⟨by norm_num [aheadState], getters_noop_when_caught_up 0 7 aheadState quarterRNG
    (by norm_num [aheadState])⟩

/-! ## One step: velocity, candidate, reflection -/

theorem speedStep_candX (s : UwDriftPosition) (r : RNG) :
    candX (speedStep s r).1 = specCandX s r := by
  rw [speedStep_eq]
  rfl

theorem speedStep_candY (s : UwDriftPosition) (r : RNG) :
    candY (speedStep s r).1 = specCandY s r := by
  rw [speedStep_eq]
  rfl

theorem speedStep_candZ (s : UwDriftPosition) (r : RNG) :
    candZ (speedStep s r).1 = specCandZ s r := by
  rw [speedStep_eq]
  rfl

/-- C4: in one loop iteration, with `v` the new x speed
`alpha_ * old_speed_x_ + (1 - alpha_) * (speed_horizontal_ + deltax_ * u * sign)`
and `cand = x_ + v * updateTime_`: if `boundx_ = 1` and `cand > xFieldWidth_`
then `x_` becomes `2 * xFieldWidth_ - cand`, `old_speed_x_` becomes `-v` and
`speed_horizontal_` is negated; else if `boundx_ = 1` and `cand < 0` then `x_`
becomes `-cand` with the same two negations; otherwise `x_ = cand`,
`old_speed_x_ = v` and `speed_horizontal_` is unchanged. The same holds on the y
axis with `yFieldWidth_`, `old_speed_y_`, `speed_longitudinal_`. -/
theorem step_xy_reflection (s : UwDriftPosition) (r : RNG) :
    ((speedStep s r).1.old_speed_x_ =
        s.alpha_ * s.old_speed_x_ + (1 - s.alpha_) *
          (s.speed_horizontal_ + s.deltax_ * r.draws r.pos * specSign (r.draws (r.pos + 1))) ∧
      candX (speedStep s r).1 = s.x_ + (speedStep s r).1.old_speed_x_ * s.updateTime_ ∧
      (s.boundx_ = 1 ∧ candX (speedStep s r).1 > s.xFieldWidth_ →
        (updateBody (s, r)).1.x_ = 2 * s.xFieldWidth_ - candX (speedStep s r).1 ∧
        (updateBody (s, r)).1.old_speed_x_ = -(speedStep s r).1.old_speed_x_ ∧
        (updateBody (s, r)).1.speed_horizontal_ = -s.speed_horizontal_) ∧
      (s.boundx_ = 1 ∧ ¬ candX (speedStep s r).1 > s.xFieldWidth_ ∧
          candX (speedStep s r).1 < 0 →
        (updateBody (s, r)).1.x_ = -candX (speedStep s r).1 ∧
        (updateBody (s, r)).1.old_speed_x_ = -(speedStep s r).1.old_speed_x_ ∧
        (updateBody (s, r)).1.speed_horizontal_ = -s.speed_horizontal_) ∧
      (¬ (s.boundx_ = 1 ∧
          (candX (speedStep s r).1 > s.xFieldWidth_ ∨ candX (speedStep s r).1 < 0)) →
        (updateBody (s, r)).1.x_ = candX (speedStep s r).1 ∧
        (updateBody (s, r)).1.old_speed_x_ = (speedStep s r).1.old_speed_x_ ∧
        (updateBody (s, r)).1.speed_horizontal_ = s.speed_horizontal_)) ∧
    ((speedStep s r).1.old_speed_y_ =
        s.alpha_ * s.old_speed_y_ + (1 - s.alpha_) *
          (s.speed_longitudinal_ +
            s.deltay_ * r.draws (r.pos + 2) * specSign (r.draws (r.pos + 3))) ∧
      candY (speedStep s r).1 = s.y_ + (speedStep s r).1.old_speed_y_ * s.updateTime_ ∧
      (s.boundy_ = 1 ∧ candY (speedStep s r).1 > s.yFieldWidth_ →
        (updateBody (s, r)).1.y_ = 2 * s.yFieldWidth_ - candY (speedStep s r).1 ∧
        (updateBody (s, r)).1.old_speed_y_ = -(speedStep s r).1.old_speed_y_ ∧
        (updateBody (s, r)).1.speed_longitudinal_ = -s.speed_longitudinal_) ∧
      (s.boundy_ = 1 ∧ ¬ candY (speedStep s r).1 > s.yFieldWidth_ ∧
          candY (speedStep s r).1 < 0 →
        (updateBody (s, r)).1.y_ = -candY (speedStep s r).1 ∧
        (updateBody (s, r)).1.old_speed_y_ = -(speedStep s r).1.old_speed_y_ ∧
        (updateBody (s, r)).1.speed_longitudinal_ = -s.speed_longitudinal_) ∧
      (¬ (s.boundy_ = 1 ∧
          (candY (speedStep s r).1 > s.yFieldWidth_ ∨ candY (speedStep s r).1 < 0)) →
        (updateBody (s, r)).1.y_ = candY (speedStep s r).1 ∧
        (updateBody (s, r)).1.old_speed_y_ = (speedStep s r).1.old_speed_y_ ∧
        (updateBody (s, r)).1.speed_longitudinal_ = s.speed_longitudinal_)) := by
  rw [speedStep_candX, speedStep_candY, updateBody_eq, speedStep_eq]
  refine ⟨⟨rfl, rfl, ?_, ?_, ?_⟩, ⟨rfl, rfl, ?_, ?_, ?_⟩⟩
  · rintro ⟨hb, h1⟩
    exact ⟨foldXY_high hb h1, negIf_pos ⟨hb, Or.inl h1⟩ _, negIf_pos ⟨hb, Or.inl h1⟩ _⟩
  · rintro ⟨hb, h1, h2⟩
    exact ⟨foldXY_low hb h1 h2, negIf_pos ⟨hb, Or.inr h2⟩ _, negIf_pos ⟨hb, Or.inr h2⟩ _⟩
  · intro hn
    exact ⟨foldXY_none hn, negIf_neg hn _, negIf_neg hn _⟩
  · rintro ⟨hb, h1⟩
    exact ⟨foldXY_high hb h1, negIf_pos ⟨hb, Or.inl h1⟩ _, negIf_pos ⟨hb, Or.inl h1⟩ _⟩
  · rintro ⟨hb, h1, h2⟩
    exact ⟨foldXY_low hb h1 h2, negIf_pos ⟨hb, Or.inr h2⟩ _, negIf_pos ⟨hb, Or.inr h2⟩ _⟩
  · intro hn
    exact ⟨foldXY_none hn, negIf_neg hn _, negIf_neg hn _⟩

/-- C4 at a concrete input: field width `100`, candidate `120`, the committed
`x_` is `80` and the speed `25` becomes `-25`. -/
theorem step_xy_reflection_witness :
    (bounceState.boundx_ = 1 ∧
      candX (speedStep bounceState quarterRNG).1 > bounceState.xFieldWidth_) ∧
    bounceState.xFieldWidth_ = 100 ∧
    candX (speedStep bounceState quarterRNG).1 = 120 ∧
    (updateBody (bounceState, quarterRNG)).1.x_ = 80 ∧
    (updateBody (bounceState, quarterRNG)).1.old_speed_x_ = -25 ∧
    (updateBody (bounceState, quarterRNG)).1.speed_horizontal_ =
      -bounceState.speed_horizontal_ := by
  have hc : candX (speedStep bounceState quarterRNG).1 = 120 := by
    rw [speedStep_candX]
    norm_num [specCandX, specVx, specV, bounceState, UwDriftPosition.UwDriftPosition]
  have hv : (speedStep bounceState quarterRNG).1.old_speed_x_ = 25 := by
    rw [speedStep_eq]
    norm_num [specVx, specV, bounceState, UwDriftPosition.UwDriftPosition]
  have hw : bounceState.xFieldWidth_ = 100 := rfl
  have hyp : bounceState.boundx_ = 1 ∧
      candX (speedStep bounceState quarterRNG).1 > bounceState.xFieldWidth_ :=
    ⟨rfl, by rw [hc, hw]; norm_num⟩
  have h := (step_xy_reflection bounceState quarterRNG).1.2.2.1 hyp
  rw [hc, hv, hw] at h
  exact ⟨hyp, hw, hc, by rw [h.1]; norm_num, h.2.1, h.2.2⟩

/-- C5: in one loop iteration, with `v` the new z speed and
`cand = z_ + v * updateTime_`, when `boundz_ = 1`: if `cand < -zFieldWidth_`
then `z_` becomes `-zFieldWidth_ - (cand + zFieldWidth_)`; else if `cand > 0`
then `z_` becomes `-cand`; in both cases `old_speed_z_` becomes `-v` and
`speed_vertical_` is negated; otherwise `z_ = cand`, `old_speed_z_ = v` and
`speed_vertical_` is unchanged. -/
theorem step_z_reflection (s : UwDriftPosition) (r : RNG) :
    (speedStep s r).1.old_speed_z_ =
        s.alpha_ * s.old_speed_z_ + (1 - s.alpha_) *
          (s.speed_vertical_ + s.deltaz_ * r.draws (r.pos + 4) * specSign (r.draws (r.pos + 5))) ∧
    candZ (speedStep s r).1 = s.z_ + (speedStep s r).1.old_speed_z_ * s.updateTime_ ∧
    (s.boundz_ = 1 ∧ candZ (speedStep s r).1 < -s.zFieldWidth_ →
      (updateBody (s, r)).1.z_ = -s.zFieldWidth_ - (candZ (speedStep s r).1 + s.zFieldWidth_) ∧
      (updateBody (s, r)).1.old_speed_z_ = -(speedStep s r).1.old_speed_z_ ∧
      (updateBody (s, r)).1.speed_vertical_ = -s.speed_vertical_) ∧
    (s.boundz_ = 1 ∧ ¬ candZ (speedStep s r).1 < -s.zFieldWidth_ ∧
        candZ (speedStep s r).1 > 0 →
      (updateBody (s, r)).1.z_ = -candZ (speedStep s r).1 ∧
      (updateBody (s, r)).1.old_speed_z_ = -(speedStep s r).1.old_speed_z_ ∧
      (updateBody (s, r)).1.speed_vertical_ = -s.speed_vertical_) ∧
    (s.boundz_ = 1 ∧ ¬ candZ (speedStep s r).1 < -s.zFieldWidth_ ∧
        ¬ candZ (speedStep s r).1 > 0 →
      (updateBody (s, r)).1.z_ = candZ (speedStep s r).1 ∧
      (updateBody (s, r)).1.old_speed_z_ = (speedStep s r).1.old_speed_z_ ∧
      (updateBody (s, r)).1.speed_vertical_ = s.speed_vertical_) := by
  rw [speedStep_candZ, updateBody_eq, speedStep_eq]
  refine ⟨rfl, rfl, ?_, ?_, ?_⟩
  · rintro ⟨hb, h1⟩
    exact ⟨foldZ_low hb h1, negIf_pos ⟨hb, Or.inl h1⟩ _, negIf_pos ⟨hb, Or.inl h1⟩ _⟩
  · rintro ⟨hb, h1, h2⟩
    exact ⟨foldZ_high hb h1 h2, negIf_pos ⟨hb, Or.inr h2⟩ _, negIf_pos ⟨hb, Or.inr h2⟩ _⟩
  · rintro ⟨_, h1, h2⟩
    have hn : ¬ (s.boundz_ = 1 ∧ (specCandZ s r < -s.zFieldWidth_ ∨ specCandZ s r > 0)) := by
      rintro ⟨_, h | h⟩
      · exact h1 h
      · exact h2 h
    exact ⟨foldZ_none hn, negIf_neg hn _, negIf_neg hn _⟩

/-- C5 at the two concrete inputs of the specification: field width `50`,
candidate `10` is committed as `-10`, candidate `-70` is committed as `-30`,
and the speed is negated in both. -/
theorem step_z_reflection_witness :
    ((surfaceState.boundz_ = 1 ∧ ¬ candZ (speedStep surfaceState quarterRNG).1 <
          -surfaceState.zFieldWidth_ ∧ candZ (speedStep surfaceState quarterRNG).1 > 0) ∧
      surfaceState.zFieldWidth_ = 50 ∧
      candZ (speedStep surfaceState quarterRNG).1 = 10 ∧
      (updateBody (surfaceState, quarterRNG)).1.z_ = -10 ∧
      (updateBody (surfaceState, quarterRNG)).1.old_speed_z_ = -15) ∧
    ((bottomState.boundz_ = 1 ∧
        candZ (speedStep bottomState quarterRNG).1 < -bottomState.zFieldWidth_) ∧
      bottomState.zFieldWidth_ = 50 ∧
      candZ (speedStep bottomState quarterRNG).1 = -70 ∧
      (updateBody (bottomState, quarterRNG)).1.z_ = -30 ∧
      (updateBody (bottomState, quarterRNG)).1.old_speed_z_ = 25) := by
  have hc1 : candZ (speedStep surfaceState quarterRNG).1 = 10 := by
    rw [speedStep_candZ]
    norm_num [specCandZ, specVz, specV, surfaceState, UwDriftPosition.UwDriftPosition]
  have hv1 : (speedStep surfaceState quarterRNG).1.old_speed_z_ = 15 := by
    rw [speedStep_eq]
    norm_num [specVz, specV, surfaceState, UwDriftPosition.UwDriftPosition]
  have hw1 : surfaceState.zFieldWidth_ = 50 := rfl
  have hyp1 : surfaceState.boundz_ = 1 ∧ ¬ candZ (speedStep surfaceState quarterRNG).1 <
      -surfaceState.zFieldWidth_ ∧ candZ (speedStep surfaceState quarterRNG).1 > 0 :=
    ⟨rfl, by rw [hc1, hw1]; norm_num, by rw [hc1]; norm_num⟩
  have h1 := (step_z_reflection surfaceState quarterRNG).2.2.2.1 hyp1
  rw [hc1, hv1] at h1
  have hc2 : candZ (speedStep bottomState quarterRNG).1 = -70 := by
    rw [speedStep_candZ]
    norm_num [specCandZ, specVz, specV, bottomState, UwDriftPosition.UwDriftPosition]
  have hv2 : (speedStep bottomState quarterRNG).1.old_speed_z_ = -25 := by
    rw [speedStep_eq]
    norm_num [specVz, specV, bottomState, UwDriftPosition.UwDriftPosition]
  have hw2 : bottomState.zFieldWidth_ = 50 := rfl
  have hyp2 : bottomState.boundz_ = 1 ∧
      candZ (speedStep bottomState quarterRNG).1 < -bottomState.zFieldWidth_ :=
    ⟨rfl, by rw [hc2, hw2]; norm_num⟩
  have h2 := (step_z_reflection bottomState quarterRNG).2.2.1 hyp2
  rw [hc2, hv2, hw2] at h2
  exact ⟨⟨hyp1, hw1, hc1, h1.1, h1.2.1⟩,
    ⟨hyp2, hw2, hc2, by rw [h2.1]; norm_num, by rw [h2.2.1]; norm_num⟩⟩

/-! ## Smoothing -/

theorem specV_alpha_one (old bias jitter u sg : ℚ) : specV 1 old bias jitter u sg = old := by
  simp [specV]

theorem specV_alpha_zero (old bias jitter u sg : ℚ) :
    specV 0 old bias jitter u sg = bias + jitter * u * sg := by
  simp [specV]

/-- C7: with `alpha_ = 0`, in a loop iteration the speed of each axis is
exactly the forcing term `speed + delta * uniform_draw * sign`, the candidate
is the coordinate plus that term times `updateTime_`, and the whole result of
the iteration (committed position included) is the same whatever the three
`old_speed_*_` were before it. -/
theorem alpha_zero_no_memory (s : UwDriftPosition) (r : RNG) (ha : s.alpha_ = 0) :
    ((speedStep s r).1.old_speed_x_ =
        s.speed_horizontal_ + s.deltax_ * r.draws r.pos * specSign (r.draws (r.pos + 1)) ∧
      (speedStep s r).1.old_speed_y_ =
        s.speed_longitudinal_ +
          s.deltay_ * r.draws (r.pos + 2) * specSign (r.draws (r.pos + 3)) ∧
      (speedStep s r).1.old_speed_z_ =
        s.speed_vertical_ + s.deltaz_ * r.draws (r.pos + 4) * specSign (r.draws (r.pos + 5))) ∧
    (candX (speedStep s r).1 = s.x_ +
        (s.speed_horizontal_ + s.deltax_ * r.draws r.pos * specSign (r.draws (r.pos + 1))) *
          s.updateTime_ ∧
      candY (speedStep s r).1 = s.y_ +
        (s.speed_longitudinal_ +
          s.deltay_ * r.draws (r.pos + 2) * specSign (r.draws (r.pos + 3))) * s.updateTime_ ∧
      candZ (speedStep s r).1 = s.z_ +
        (s.speed_vertical_ + s.deltaz_ * r.draws (r.pos + 4) * specSign (r.draws (r.pos + 5))) *
          s.updateTime_) ∧
    ∀ ox oy oz : ℚ,
      updateBody ({ s with old_speed_x_ := ox, old_speed_y_ := oy, old_speed_z_ := oz }, r) =
        updateBody (s, r) := by
  have hx : specVx s r =
      s.speed_horizontal_ + s.deltax_ * r.draws r.pos * specSign (r.draws (r.pos + 1)) := by
    rw [specVx, ha, specV_alpha_zero]
  have hy : specVy s r = s.speed_longitudinal_ +
      s.deltay_ * r.draws (r.pos + 2) * specSign (r.draws (r.pos + 3)) := by
    rw [specVy, ha, specV_alpha_zero]
  have hz : specVz s r =
      s.speed_vertical_ + s.deltaz_ * r.draws (r.pos + 4) * specSign (r.draws (r.pos + 5)) := by
    rw [specVz, ha, specV_alpha_zero]
  refine ⟨?_, ?_, ?_⟩
  · rw [speedStep_eq]
    exact ⟨hx, hy, hz⟩
  · rw [speedStep_candX, speedStep_candY, speedStep_candZ, specCandX, specCandY, specCandZ,
      hx, hy, hz]
    exact ⟨rfl, rfl, rfl⟩
  · intro ox oy oz
    have hx2 : specVx { s with old_speed_x_ := ox, old_speed_y_ := oy, old_speed_z_ := oz } r =
        specVx s r := by
      simp only [specVx, ha, specV_alpha_zero]
    have hy2 : specVy { s with old_speed_x_ := ox, old_speed_y_ := oy, old_speed_z_ := oz } r =
        specVy s r := by
      simp only [specVy, ha, specV_alpha_zero]
    have hz2 : specVz { s with old_speed_x_ := ox, old_speed_y_ := oy, old_speed_z_ := oz } r =
        specVz s r := by
      simp only [specVz, ha, specV_alpha_zero]
    rw [updateBody_eq, updateBody_eq]
    simp only [specCandX, specCandY, specCandZ, hx2, hy2, hz2]

/-- C7 at a concrete input: `forgetfulState` (`alpha_ = 0`, old speeds `7`). -/
theorem alpha_zero_no_memory_witness :
    forgetfulState.alpha_ = 0 ∧
    (speedStep forgetfulState quarterRNG).1.old_speed_x_ = 2 ∧
    candX (speedStep forgetfulState quarterRNG).1 = 7 ∧
    updateBody ({ forgetfulState with old_speed_x_ := 0, old_speed_y_ := 0, old_speed_z_ := 0 },
        quarterRNG) = updateBody (forgetfulState, quarterRNG) := by
  have h := alpha_zero_no_memory forgetfulState quarterRNG rfl
  refine ⟨rfl, ?_, ?_, h.2.2 0 0 0⟩
  · rw [h.1.1]
    norm_num [forgetfulState, UwDriftPosition.UwDriftPosition, quarterRNG, specSign]
  · rw [h.2.1.1]
    norm_num [forgetfulState, UwDriftPosition.UwDriftPosition, quarterRNG, specSign]

/-! ## The end-to-end scenario -/

/-- C8 as stated fails: in the scenario state (`alpha_ = 0`, bias `0`, jitter
`0`, `old_speed_x_ = 10`, `x_ = 995`) the candidate of the first step is `995`,
not `1005`, and does not exceed the field width `1000`. -/
theorem scenario_candidate_counterexample :
    (scenarioState.xFieldWidth_ = 1000 ∧ scenarioState.boundx_ = 1 ∧
      scenarioState.speed_horizontal_ = 0 ∧ scenarioState.alpha_ = 0 ∧
      scenarioState.deltax_ = 0 ∧ scenarioState.updateTime_ = 1 ∧
      scenarioState.old_speed_x_ = 10 ∧ scenarioState.x_ = 995 ∧
      scenarioState.nextUpdateTime_ = 0) ∧
    candX (speedStep scenarioState quarterRNG).1 = 995 ∧
    candX (speedStep scenarioState quarterRNG).1 ≠ 1005 ∧
    ¬ candX (speedStep scenarioState quarterRNG).1 > scenarioState.xFieldWidth_ := by
  have hc : candX (speedStep scenarioState quarterRNG).1 = 995 := by
    rw [speedStep_candX]
    norm_num [specCandX, specVx, specV, scenarioState, UwDriftPosition.UwDriftPosition]
  refine ⟨⟨rfl, rfl, rfl, rfl, rfl, rfl, rfl, rfl, rfl⟩, hc, ?_, ?_⟩
  · rw [hc]
    norm_num
  · rw [hc]
    norm_num [scenarioState, UwDriftPosition.UwDriftPosition]

/-- C8, amended: from any state with the values of the scenario (whatever the
other fields and the draws), `update(1)` returns after exactly one loop
iteration; the speed of that step is `0` (with `alpha_ = 0` the starting speed
`10` is not used), its candidate is `995`, inside `[0, 1000]`, so nothing is
reflected or negated: `x_ = 995`, `old_speed_x_ = 0`, `speed_horizontal_ = 0`,
`nextUpdateTime_ = 1`. The values `boundx_ = 1` and `old_speed_x_ = 10` of the
scenario play no part, so they are not assumed. -/
theorem scenario_first_step (s : UwDriftPosition) (r : RNG)
    (hW : s.xFieldWidth_ = 1000) (hsh : s.speed_horizontal_ = 0)
    (ha : s.alpha_ = 0) (hdx : s.deltax_ = 0) (hdt : s.updateTime_ = 1)
    (hx : s.x_ = 995) (hn : s.nextUpdateTime_ = 0)
    (fuel : Nat) (hf : 1 ≤ fuel) :
    (speedStep s r).1.old_speed_x_ = 0 ∧
    candX (speedStep s r).1 = 995 ∧
    ¬ bouncesXY s.boundx_ s.xFieldWidth_ (candX (speedStep s r).1) ∧
    ∃ w, update fuel 1 (s, r) = some w ∧
      w = ({ (updateBody (s, r)).1 with nextUpdateTime_ := 1 }, (updateBody (s, r)).2) ∧
      w.1.x_ = 995 ∧ w.1.old_speed_x_ = 0 ∧ w.1.speed_horizontal_ = 0 ∧
      w.1.nextUpdateTime_ = 1 ∧ w.2.pos = r.pos + 6 := by
  have hv : specVx s r = 0 := by
    rw [specVx, ha, hdx, hsh, specV_alpha_zero]
    ring
  have hc : specCandX s r = 995 := by
    rw [specCandX, hv, hx]
    ring
  have hnb : ¬ bouncesXY s.boundx_ s.xFieldWidth_ (specCandX s r) := by
    rw [hc, hW]
    rintro ⟨_, h | h⟩
    · norm_num at h
    · norm_num at h
  have hu := update_one_step s r 1 (by rw [hn]; norm_num) (by rw [hn, hdt]; norm_num) fuel hf
  rw [hn, hdt] at hu
  norm_num at hu
  refine ⟨?_, ?_, ?_, _, hu, rfl, ?_, ?_, ?_, rfl, ?_⟩
  · rw [speedStep_eq]
    exact hv
  · rw [speedStep_candX]
    exact hc
  · rw [speedStep_candX]
    exact hnb
  · show (updateBody (s, r)).1.x_ = 995
    rw [updateBody_eq]
    show foldXY _ _ (specCandX s r) = 995
    rw [foldXY_none hnb, hc]
  · show (updateBody (s, r)).1.old_speed_x_ = 0
    rw [updateBody_eq]
    show negIf _ (specVx s r) = 0
    rw [negIf_neg hnb, hv]
  · show (updateBody (s, r)).1.speed_horizontal_ = 0
    rw [updateBody_eq]
    show negIf _ s.speed_horizontal_ = 0
    rw [negIf_neg hnb, hsh]
  · show (updateBody (s, r)).2.pos = r.pos + 6
    rw [updateBody_eq]

/-- C8 (amended) at the scenario state with the fields the scenario leaves
open at their defaults. -/
theorem scenario_first_step_witness :
    (scenarioState.xFieldWidth_ = 1000 ∧ scenarioState.boundx_ = 1 ∧
      scenarioState.speed_horizontal_ = 0 ∧ scenarioState.alpha_ = 0 ∧
      scenarioState.deltax_ = 0 ∧ scenarioState.updateTime_ = 1 ∧
      scenarioState.old_speed_x_ = 10 ∧ scenarioState.x_ = 995 ∧
      scenarioState.nextUpdateTime_ = 0) ∧
    (speedStep scenarioState quarterRNG).1.old_speed_x_ = 0 ∧
    candX (speedStep scenarioState quarterRNG).1 = 995 ∧
    ¬ bouncesXY scenarioState.boundx_ scenarioState.xFieldWidth_
        (candX (speedStep scenarioState quarterRNG).1) ∧
    ∃ w, update 1 1 (scenarioState, quarterRNG) = some w ∧
      w = ({ (updateBody (scenarioState, quarterRNG)).1 with nextUpdateTime_ := 1 },
            (updateBody (scenarioState, quarterRNG)).2) ∧
      w.1.x_ = 995 ∧ w.1.old_speed_x_ = 0 ∧ w.1.speed_horizontal_ = 0 ∧
      w.1.nextUpdateTime_ = 1 ∧ w.2.pos = quarterRNG.pos + 6 :=
  ⟨⟨rfl, rfl, rfl, rfl, rfl, rfl, rfl, rfl, rfl⟩,
    scenario_first_step scenarioState quarterRNG rfl rfl rfl rfl rfl rfl rfl 1 (le_refl 1)⟩

/-! ## Containment after one step -/

theorem foldXY_mem {W c : ℚ} (hlo : -W ≤ c) (hhi : c ≤ 2 * W) :
    0 ≤ foldXY 1 W c ∧ foldXY 1 W c ≤ W := by
  by_cases h1 : c > W
  · rw [foldXY_high rfl h1]
    constructor <;> linarith
  · by_cases h2 : c < 0
    · rw [foldXY_low rfl h1 h2]
      constructor <;> linarith
    · rw [foldXY_none (fun h => h.2.elim h1 h2)]
      exact ⟨not_lt.mp h2, not_lt.mp h1⟩

theorem foldZ_mem {W c : ℚ} (hlo : -(2 * W) ≤ c) (hhi : c ≤ W) :
    -W ≤ foldZ 1 W c ∧ foldZ 1 W c ≤ 0 := by
  by_cases h1 : c < -W
  · rw [foldZ_low rfl h1]
    constructor <;> linarith
  · by_cases h2 : c > 0
    · rw [foldZ_high rfl h1 h2]
      constructor <;> linarith
    · rw [foldZ_none (fun h => h.2.elim h1 h2)]
      exact ⟨not_lt.mp h1, not_lt.mp h2⟩

/-- C9: in one loop iteration, on an axis whose bound flag is `1` and whose
field width `W` is `>= 0`, when the candidate is in `[-W, 2 * W]` (x and y) or
in `[-2 * W, W]` (z), the committed coordinate is in `[0, W]` (x and y) or in
`[-W, 0]` (z). -/
theorem step_containment (s : UwDriftPosition) (r : RNG) :
    (s.boundx_ = 1 → 0 ≤ s.xFieldWidth_ →
      -s.xFieldWidth_ ≤ candX (speedStep s r).1 →
      candX (speedStep s r).1 ≤ 2 * s.xFieldWidth_ →
      0 ≤ (updateBody (s, r)).1.x_ ∧ (updateBody (s, r)).1.x_ ≤ s.xFieldWidth_) ∧
    (s.boundy_ = 1 → 0 ≤ s.yFieldWidth_ →
      -s.yFieldWidth_ ≤ candY (speedStep s r).1 →
      candY (speedStep s r).1 ≤ 2 * s.yFieldWidth_ →
      0 ≤ (updateBody (s, r)).1.y_ ∧ (updateBody (s, r)).1.y_ ≤ s.yFieldWidth_) ∧
    (s.boundz_ = 1 → 0 ≤ s.zFieldWidth_ →
      -(2 * s.zFieldWidth_) ≤ candZ (speedStep s r).1 →
      candZ (speedStep s r).1 ≤ s.zFieldWidth_ →
      -s.zFieldWidth_ ≤ (updateBody (s, r)).1.z_ ∧ (updateBody (s, r)).1.z_ ≤ 0) := by
  rw [speedStep_candX, speedStep_candY, speedStep_candZ, updateBody_eq]
  refine ⟨?_, ?_, ?_⟩
  · intro hb _ hlo hhi
    show 0 ≤ foldXY s.boundx_ _ _ ∧ foldXY s.boundx_ _ _ ≤ _
    rw [hb]
    exact foldXY_mem hlo hhi
  · intro hb _ hlo hhi
    show 0 ≤ foldXY s.boundy_ _ _ ∧ foldXY s.boundy_ _ _ ≤ _
    rw [hb]
    exact foldXY_mem hlo hhi
  · intro hb _ hlo hhi
    show _ ≤ foldZ s.boundz_ _ _ ∧ foldZ s.boundz_ _ _ ≤ 0
    rw [hb]
    exact foldZ_mem hlo hhi

/-- C9 at a concrete input: `cornerState`, whose candidates `120`, `-10` and
`-70` leave the field on all three axes by less than one field width. -/
theorem step_containment_witness :
    (candX (speedStep cornerState quarterRNG).1 = 120 ∧
      candY (speedStep cornerState quarterRNG).1 = -10 ∧
      candZ (speedStep cornerState quarterRNG).1 = -70) ∧
    (0 ≤ (updateBody (cornerState, quarterRNG)).1.x_ ∧
      (updateBody (cornerState, quarterRNG)).1.x_ ≤ cornerState.xFieldWidth_) ∧
    (0 ≤ (updateBody (cornerState, quarterRNG)).1.y_ ∧
      (updateBody (cornerState, quarterRNG)).1.y_ ≤ cornerState.yFieldWidth_) ∧
    (-cornerState.zFieldWidth_ ≤ (updateBody (cornerState, quarterRNG)).1.z_ ∧
      (updateBody (cornerState, quarterRNG)).1.z_ ≤ 0) := by
  have hx : candX (speedStep cornerState quarterRNG).1 = 120 := by
    rw [speedStep_candX]
    norm_num [specCandX, specVx, specV, cornerState, UwDriftPosition.UwDriftPosition]
  have hy : candY (speedStep cornerState quarterRNG).1 = -10 := by
    rw [speedStep_candY]
    norm_num [specCandY, specVy, specV, cornerState, UwDriftPosition.UwDriftPosition]
  have hz : candZ (speedStep cornerState quarterRNG).1 = -70 := by
    rw [speedStep_candZ]
    norm_num [specCandZ, specVz, specV, cornerState, UwDriftPosition.UwDriftPosition]
  have hwx : cornerState.xFieldWidth_ = 100 := rfl
  have hwy : cornerState.yFieldWidth_ = 100 := rfl
  have hwz : cornerState.zFieldWidth_ = 50 := rfl
  have h := step_containment cornerState quarterRNG
  exact ⟨⟨hx, hy, hz⟩,
    h.1 rfl (by rw [hwx]; norm_num) (by rw [hx, hwx]; norm_num) (by rw [hx, hwx]; norm_num),
    h.2.1 rfl (by rw [hwy]; norm_num) (by rw [hy, hwy]; norm_num) (by rw [hy, hwy]; norm_num),
    h.2.2 rfl (by rw [hwz]; norm_num) (by rw [hz, hwz]; norm_num) (by rw [hz, hwz]; norm_num)⟩

/-! ## Construction -/

/-- C10 as stated fails: the model built with no binding has
`updateTime_ = 0`, is a state like any other, and `getX` at clock `1` calls
`update` on it; the loop of that call never exits (no fuel is enough). -/
theorem constructor_accepts_zero_interval_counterexample :
    defaultState.updateTime_ ≤ 0 ∧ (1 : ℚ) > defaultState.nextUpdateTime_ ∧
    ∀ fuel : Nat,
      getX fuel 1 (defaultState, quarterRNG) =
        (update fuel 1 (defaultState, quarterRNG)).map (fun w1 => (w1.1.x_, w1)) ∧
      update fuel 1 (defaultState, quarterRNG) = none := by
  have h0 : defaultState.updateTime_ ≤ 0 := by
    norm_num [defaultState, UwDriftPosition.UwDriftPosition]
  have h1 : (1 : ℚ) > defaultState.nextUpdateTime_ := by
    norm_num [defaultState, UwDriftPosition.UwDriftPosition]
  refine ⟨h0, h1, fun fuel => ⟨?_, ?_⟩⟩
  · show (if (1 : ℚ) > defaultState.nextUpdateTime_ then _ else _) = _
    rw [if_pos h1]
  · show (updateLoop 1 fuel defaultState.nextUpdateTime_ (defaultState, quarterRNG)).map _ = none
    rw [updateLoop_diverges 1 fuel _ _ h0 h1]
    rfl

/-- C10, amended: the constructor checks nothing and cannot fail: for every
binding it yields a state whose `updateTime_` is the bound value (`0` when
nothing is bound) and whose `nextUpdateTime_` is `0`. When the bound
`updateTime_` is `<= 0`, a getter called at a clock value `now > 0` calls
`update`, whose loop never exits; called at `now <= 0` it returns the
coordinate at once. -/
theorem constructor_no_validation (b : Bindings) (r : RNG) :
    (UwDriftPosition.UwDriftPosition b).updateTime_ = b.updateTime_ ∧
    (UwDriftPosition.UwDriftPosition b).nextUpdateTime_ = 0 ∧
    (UwDriftPosition.UwDriftPosition {}).updateTime_ = 0 ∧
    (b.updateTime_ ≤ 0 → ∀ now : ℚ, 0 < now → ∀ fuel : Nat,
      update fuel now (UwDriftPosition.UwDriftPosition b, r) = none ∧
      getX fuel now (UwDriftPosition.UwDriftPosition b, r) = none ∧
      getY fuel now (UwDriftPosition.UwDriftPosition b, r) = none ∧
      getZ fuel now (UwDriftPosition.UwDriftPosition b, r) = none) ∧
    (∀ now : ℚ, now ≤ 0 → ∀ fuel : Nat,
      getX fuel now (UwDriftPosition.UwDriftPosition b, r) =
        some (b.x_, (UwDriftPosition.UwDriftPosition b, r))) := by
  refine ⟨rfl, rfl, rfl, ?_, ?_⟩
  · intro hb now hnow fuel
    have hu : update fuel now (UwDriftPosition.UwDriftPosition b, r) = none := by
      show (updateLoop now fuel 0 (UwDriftPosition.UwDriftPosition b, r)).map _ = none
      rw [updateLoop_diverges now fuel 0 _ hb hnow]
      rfl
    have hg : now > (UwDriftPosition.UwDriftPosition b, r).1.nextUpdateTime_ := hnow
    refine ⟨hu, ?_, ?_, ?_⟩
    · rw [getX, if_pos hg, hu]
      rfl
    · rw [getY, if_pos hg, hu]
      rfl
    · rw [getZ, if_pos hg, hu]
      rfl
  · intro now hnow fuel
    have hg : ¬ now > (UwDriftPosition.UwDriftPosition b, r).1.nextUpdateTime_ :=
      not_lt.mpr hnow
    rw [getX, if_neg hg]
    rfl

/-- C10 (amended) at the model built with no binding, asked at clock `1`. -/
theorem constructor_no_validation_witness :
    (({} : Bindings).updateTime_ ≤ 0 ∧ (0 : ℚ) < 1) ∧
    update 5 1 (UwDriftPosition.UwDriftPosition {}, quarterRNG) = none ∧
    getX 5 1 (UwDriftPosition.UwDriftPosition {}, quarterRNG) = none ∧
    getY 5 1 (UwDriftPosition.UwDriftPosition {}, quarterRNG) = none ∧
    getZ 5 1 (UwDriftPosition.UwDriftPosition {}, quarterRNG) = none :=
  ⟨⟨le_refl 0, by norm_num⟩,
    (constructor_no_validation {} quarterRNG).2.2.2.1 (le_refl 0) 1 (by norm_num) 5⟩

/-! ## The sign rule -/

/-- C17: `getSign` consumes exactly one draw (the generator moves on by one
position and its stream is unchanged) and returns `1` when that draw is below
`1/2` and `-1` otherwise, so a draw of exactly `1/2` yields `-1`; it returns no
other value. -/
theorem getSign_rule (r : RNG) :
    ((getSign r).2.pos = r.pos + 1 ∧ (getSign r).2.draws = r.draws) ∧
    (r.draws r.pos < 1 / 2 → (getSign r).1 = 1) ∧
    (¬ r.draws r.pos < 1 / 2 → (getSign r).1 = -1) ∧
    (r.draws r.pos = 1 / 2 → (getSign r).1 = -1) ∧
    ((getSign r).1 = 1 ∨ (getSign r).1 = -1) := by
  have hlt : r.draws r.pos < 1 / 2 → (getSign r).1 = 1 := by
    intro h
    simp only [getSign, uniform_double]
    rw [if_pos h]
  have hge : ¬ r.draws r.pos < 1 / 2 → (getSign r).1 = -1 := by
    intro h
    simp only [getSign, uniform_double]
    rw [if_neg h]
  refine ⟨?_, hlt, hge, ?_, ?_⟩
  · rw [getSign_snd]
    exact ⟨rfl, rfl⟩
  · intro h
    exact hge (by rw [h]; exact lt_irrefl _)
  · by_cases h : r.draws r.pos < 1 / 2
    · exact Or.inl (hlt h)
    · exact Or.inr (hge h)

/-- C17 at two concrete generators: a draw of `1/4` gives `1`, a draw of
exactly `1/2` gives `-1`. -/
theorem getSign_rule_witness :
    (quarterRNG.draws quarterRNG.pos < 1 / 2 ∧ (getSign quarterRNG).1 = 1) ∧
    (halfRNG.draws halfRNG.pos = 1 / 2 ∧ (getSign halfRNG).1 = -1) :=
  ⟨⟨by norm_num [quarterRNG], (getSign_rule quarterRNG).2.1 (by norm_num [quarterRNG])⟩,
    ⟨rfl, (getSign_rule halfRNG).2.2.2.1 rfl⟩⟩

/-! ## The single-bounce limitation -/

/-- C16: there is a state with `boundx_ = 1`, `xFieldWidth_ >= 0` and `x_`
inside `[0, xFieldWidth_]` (here `x_ = 50`, width `100`, speed `300`, step `1`)
for which one loop iteration commits an `x_` outside `[0, xFieldWidth_]`: the
candidate `350` is reflected once to `-150`, and `update` returns with that
value committed. -/
theorem single_bounce_leaves_field :
    ∃ (s : UwDriftPosition) (r : RNG),
      s.boundx_ = 1 ∧ 0 ≤ s.xFieldWidth_ ∧ (0 ≤ s.x_ ∧ s.x_ ≤ s.xFieldWidth_) ∧
      candX (speedStep s r).1 = 350 ∧
      (updateBody (s, r)).1.x_ = -150 ∧
      ¬ (0 ≤ (updateBody (s, r)).1.x_ ∧ (updateBody (s, r)).1.x_ ≤ s.xFieldWidth_) ∧
      ∃ w, update 1 1 (s, r) = some w ∧ w.1.x_ = -150 ∧ w.1.nextUpdateTime_ = 1 := by
  have hc : specCandX overshootState quarterRNG = 350 := by
    norm_num [specCandX, specVx, specV, overshootState, UwDriftPosition.UwDriftPosition]
  have hw : overshootState.xFieldWidth_ = 100 := rfl
  have hx : (updateBody (overshootState, quarterRNG)).1.x_ = -150 := by
    rw [updateBody_eq]
    show foldXY overshootState.boundx_ overshootState.xFieldWidth_
      (specCandX overshootState quarterRNG) = -150
    have hb : overshootState.boundx_ = 1 := rfl
    have hgt : specCandX overshootState quarterRNG > overshootState.xFieldWidth_ := by
      rw [hc, hw]
      norm_num
    rw [foldXY_high hb hgt, hc, hw]
    norm_num
  have hu := update_one_step overshootState quarterRNG 1
    (by norm_num [overshootState, UwDriftPosition.UwDriftPosition])
    (by norm_num [overshootState, UwDriftPosition.UwDriftPosition]) 1 (le_refl 1)
  refine ⟨overshootState, quarterRNG, rfl, by rw [hw]; norm_num,
    by norm_num [overshootState, UwDriftPosition.UwDriftPosition], ?_, hx, ?_, _, hu, hx, ?_⟩
  · rw [speedStep_candX]
    exact hc
  · rw [hx]
    norm_num
  · show overshootState.nextUpdateTime_ + overshootState.updateTime_ = 1
    norm_num [overshootState, UwDriftPosition.UwDriftPosition]

/-! ## The lower z boundary -/

/-- C13 as stated fails: `biasedBounceState` (x bound on, field width `100`,
previous speed `10`, `alpha_ = 0`, bias `25`) has candidate `120`, committed as
`80`; after the step `old_speed_x_` is `-25`, the negation of the speed computed
in the step, not the negation `-10` of its value before the step. -/
theorem sign_flip_pre_step_counterexample :
    biasedBounceState.boundx_ = 1 ∧ biasedBounceState.xFieldWidth_ = 100 ∧
    candX (speedStep biasedBounceState quarterRNG).1 = 120 ∧
    (updateBody (biasedBounceState, quarterRNG)).1.x_ = 80 ∧
    biasedBounceState.old_speed_x_ = 10 ∧
    (updateBody (biasedBounceState, quarterRNG)).1.old_speed_x_ = -25 ∧
    (updateBody (biasedBounceState, quarterRNG)).1.old_speed_x_ ≠
      -biasedBounceState.old_speed_x_ := by
  have hv : specVx biasedBounceState quarterRNG = 25 := by
    norm_num [specVx, specV, biasedBounceState, UwDriftPosition.UwDriftPosition]
  have hc : specCandX biasedBounceState quarterRNG = 120 := by
    rw [specCandX, hv]
    norm_num [biasedBounceState, UwDriftPosition.UwDriftPosition]
  have hw : biasedBounceState.xFieldWidth_ = 100 := rfl
  have hb : biasedBounceState.boundx_ = 1 := rfl
  have hgt : specCandX biasedBounceState quarterRNG > biasedBounceState.xFieldWidth_ := by
    rw [hc, hw]
    norm_num
  have hx : (updateBody (biasedBounceState, quarterRNG)).1.x_ = 80 := by
    rw [updateBody_eq]
    show foldXY biasedBounceState.boundx_ biasedBounceState.xFieldWidth_
      (specCandX biasedBounceState quarterRNG) = 80
    rw [foldXY_high hb hgt, hc, hw]
    norm_num
  have ho : (updateBody (biasedBounceState, quarterRNG)).1.old_speed_x_ = -25 := by
    rw [updateBody_eq]
    show negIf _ (specVx biasedBounceState quarterRNG) = -25
    rw [negIf_pos ⟨hb, Or.inl hgt⟩, hv]
  have hold : biasedBounceState.old_speed_x_ = 10 := rfl
  refine ⟨hb, hw, ?_, hx, hold, ho, ?_⟩
  · rw [speedStep_candX]
    exact hc
  · rw [ho, hold]
    norm_num

/-- C13, amended: in a loop iteration with `boundx_ = 1` whose candidate
exceeds `xFieldWidth_`, after the step `old_speed_x_` is the negation of the
speed `v` computed in that step
(`v = alpha_ * old_speed_x_ + (1 - alpha_) * (speed_horizontal_ + deltax_ * u * sign)`),
and `speed_horizontal_` is the negation of its value before the step. The new
`old_speed_x_` is the negation of its value before the step exactly when `v`
equals that value, which is the case when `alpha_ = 1`. -/
theorem sign_flip_on_x_rebounce (s : UwDriftPosition) (r : RNG)
    (hb : s.boundx_ = 1) (hc : candX (speedStep s r).1 > s.xFieldWidth_) :
    (speedStep s r).1.old_speed_x_ =
        s.alpha_ * s.old_speed_x_ + (1 - s.alpha_) *
          (s.speed_horizontal_ + s.deltax_ * r.draws r.pos * specSign (r.draws (r.pos + 1))) ∧
    (updateBody (s, r)).1.x_ = 2 * s.xFieldWidth_ - candX (speedStep s r).1 ∧
    (updateBody (s, r)).1.old_speed_x_ = -(speedStep s r).1.old_speed_x_ ∧
    (updateBody (s, r)).1.speed_horizontal_ = -s.speed_horizontal_ ∧
    ((updateBody (s, r)).1.old_speed_x_ = -s.old_speed_x_ ↔
      (speedStep s r).1.old_speed_x_ = s.old_speed_x_) ∧
    (s.alpha_ = 1 → (updateBody (s, r)).1.old_speed_x_ = -s.old_speed_x_) := by
  rw [speedStep_candX] at hc
  have ho : (updateBody (s, r)).1.old_speed_x_ = -specVx s r := by
    rw [updateBody_eq]
    exact negIf_pos ⟨hb, Or.inl hc⟩ _
  have hv : (speedStep s r).1.old_speed_x_ = specVx s r := by
    rw [speedStep_eq]
  rw [speedStep_candX, hv, ho]
  refine ⟨rfl, ?_, rfl, ?_, neg_inj, ?_⟩
  · rw [updateBody_eq]
    exact foldXY_high hb hc
  · rw [updateBody_eq]
    exact negIf_pos ⟨hb, Or.inl hc⟩ _
  · intro ha
    rw [specVx, ha, specV_alpha_one]

/-- C13 (amended) at a concrete input: `biasedBounceState`, field width `100`,
candidate `120`, speed of the step `25`, bias `25`. -/
theorem sign_flip_on_x_rebounce_witness :
    (biasedBounceState.boundx_ = 1 ∧
      candX (speedStep biasedBounceState quarterRNG).1 > biasedBounceState.xFieldWidth_) ∧
    (updateBody (biasedBounceState, quarterRNG)).1.old_speed_x_ =
      -(speedStep biasedBounceState quarterRNG).1.old_speed_x_ ∧
    (updateBody (biasedBounceState, quarterRNG)).1.speed_horizontal_ =
      -biasedBounceState.speed_horizontal_ := by
  have hc : candX (speedStep biasedBounceState quarterRNG).1 >
      biasedBounceState.xFieldWidth_ := by
    rw [speedStep_candX]
    norm_num [specCandX, specVx, specV, biasedBounceState, UwDriftPosition.UwDriftPosition]
  have h := sign_flip_on_x_rebounce biasedBounceState quarterRNG rfl hc
  exact ⟨⟨rfl, hc⟩, h.2.2.1, h.2.2.2.1⟩

/-! ## What a returning call of update has done -/

theorem updateBody_rng (s : UwDriftPosition) (r : RNG) :
    (updateBody (s, r)).2 = { r with pos := r.pos + 6 } := by
  rw [updateBody_eq]

theorem sameDraws_step {off : Nat} {r1 r2 : RNG} (h : sameDraws off r1 r2) :
    sameDraws off { r1 with pos := r1.pos + 6 } { r2 with pos := r2.pos + 6 } := by
  intro i
  have hi := h (i + 1)
  have e1 : r1.pos + 6 * (i + 1) + off = r1.pos + 6 + 6 * i + off := by ring
  have e2 : r2.pos + 6 * (i + 1) + off = r2.pos + 6 + 6 * i + off := by ring
  rw [e1, e2] at hi
  exact hi

theorem agreeX_step {a b : UwDriftPosition} {r1 r2 : RNG} (h : agreeX a b)
    (hd : sameDraws 0 r1 r2) : agreeX (updateBody (a, r1)).1 (updateBody (b, r2)).1 := by
  obtain ⟨hal, hdt, hx, ho, hs, hW, hb, hj⟩ := h
  have h0 := hd 0
  simp only [Nat.mul_zero, Nat.add_zero] at h0
  have hv : specVx a r1 = specVx b r2 := by
    rw [specVx, specVx, hal, ho, hs, hj, h0.1, h0.2]
  have hc : specCandX a r1 = specCandX b r2 := by
    rw [specCandX, specCandX, hv, hx, hdt]
  rw [updateBody_eq, updateBody_eq]
  refine ⟨hal, hdt, ?_, ?_, ?_, hW, hb, hj⟩
  · show foldXY a.boundx_ a.xFieldWidth_ (specCandX a r1) =
      foldXY b.boundx_ b.xFieldWidth_ (specCandX b r2)
    rw [hb, hW, hc]
  · show negIf (bouncesXY a.boundx_ a.xFieldWidth_ (specCandX a r1)) (specVx a r1) =
      negIf (bouncesXY b.boundx_ b.xFieldWidth_ (specCandX b r2)) (specVx b r2)
    simp only [hb, hW, hc, hv]
  · show negIf (bouncesXY a.boundx_ a.xFieldWidth_ (specCandX a r1)) a.speed_horizontal_ =
      negIf (bouncesXY b.boundx_ b.xFieldWidth_ (specCandX b r2)) b.speed_horizontal_
    simp only [hb, hW, hc, hs]

theorem agreeY_step {a b : UwDriftPosition} {r1 r2 : RNG} (h : agreeY a b)
    (hd : sameDraws 2 r1 r2) : agreeY (updateBody (a, r1)).1 (updateBody (b, r2)).1 := by
  obtain ⟨hal, hdt, hx, ho, hs, hW, hb, hj⟩ := h
  have h0 := hd 0
  simp only [Nat.mul_zero, Nat.add_zero] at h0
  have hv : specVy a r1 = specVy b r2 := by
    rw [specVy, specVy, hal, ho, hs, hj, h0.1, h0.2]
  have hc : specCandY a r1 = specCandY b r2 := by
    rw [specCandY, specCandY, hv, hx, hdt]
  rw [updateBody_eq, updateBody_eq]
  refine ⟨hal, hdt, ?_, ?_, ?_, hW, hb, hj⟩
  · show foldXY a.boundy_ a.yFieldWidth_ (specCandY a r1) =
      foldXY b.boundy_ b.yFieldWidth_ (specCandY b r2)
    rw [hb, hW, hc]
  · show negIf (bouncesXY a.boundy_ a.yFieldWidth_ (specCandY a r1)) (specVy a r1) =
      negIf (bouncesXY b.boundy_ b.yFieldWidth_ (specCandY b r2)) (specVy b r2)
    simp only [hb, hW, hc, hv]
  · show negIf (bouncesXY a.boundy_ a.yFieldWidth_ (specCandY a r1)) a.speed_longitudinal_ =
      negIf (bouncesXY b.boundy_ b.yFieldWidth_ (specCandY b r2)) b.speed_longitudinal_
    simp only [hb, hW, hc, hs]

theorem agreeZ_step {a b : UwDriftPosition} {r1 r2 : RNG} (h : agreeZ a b)
    (hd : sameDraws 4 r1 r2) : agreeZ (updateBody (a, r1)).1 (updateBody (b, r2)).1 := by
  obtain ⟨hal, hdt, hx, ho, hs, hW, hb, hj⟩ := h
  have h0 := hd 0
  simp only [Nat.mul_zero, Nat.add_zero] at h0
  have hv : specVz a r1 = specVz b r2 := by
    rw [specVz, specVz, hal, ho, hs, hj, h0.1, h0.2]
  have hc : specCandZ a r1 = specCandZ b r2 := by
    rw [specCandZ, specCandZ, hv, hx, hdt]
  rw [updateBody_eq, updateBody_eq]
  refine ⟨hal, hdt, ?_, ?_, ?_, hW, hb, hj⟩
  · show foldZ a.boundz_ a.zFieldWidth_ (specCandZ a r1) =
      foldZ b.boundz_ b.zFieldWidth_ (specCandZ b r2)
    rw [hb, hW, hc]
  · show negIf (bouncesZ a.boundz_ a.zFieldWidth_ (specCandZ a r1)) (specVz a r1) =
      negIf (bouncesZ b.boundz_ b.zFieldWidth_ (specCandZ b r2)) (specVz b r2)
    simp only [hb, hW, hc, hv]
  · show negIf (bouncesZ a.boundz_ a.zFieldWidth_ (specCandZ a r1)) a.speed_vertical_ =
      negIf (bouncesZ b.boundz_ b.zFieldWidth_ (specCandZ b r2)) b.speed_vertical_
    simp only [hb, hW, hc, hs]

/-- An agreement of two runs that every loop iteration keeps, given the draws
it needs, holds after any number of iterations of both. -/
theorem iterate_agree (off : Nat) (A : UwDriftPosition → UwDriftPosition → Prop)
    (hstep : ∀ (a b : UwDriftPosition) (r1 r2 : RNG), A a b → sameDraws off r1 r2 →
      A (updateBody (a, r1)).1 (updateBody (b, r2)).1) :
    ∀ (k : Nat) (a b : UwDriftPosition) (r1 r2 : RNG), A a b → sameDraws off r1 r2 →
      A (updateBody^[k] (a, r1)).1 (updateBody^[k] (b, r2)).1 := by
  intro k
  induction k with
  | zero =>
    intro a b r1 r2 h _
    exact h
  | succ k ih =>
    intro a b r1 r2 h hd
    rw [Function.iterate_succ_apply, Function.iterate_succ_apply]
    have h1 := hstep a b r1 r2 h hd
    have e1 : updateBody (a, r1) = ((updateBody (a, r1)).1, { r1 with pos := r1.pos + 6 }) := by
      rw [← updateBody_rng]
    have e2 : updateBody (b, r2) = ((updateBody (b, r2)).1, { r2 with pos := r2.pos + 6 }) := by
      rw [← updateBody_rng]
    rw [e1, e2]
    exact ih _ _ _ _ h1 (sameDraws_step hd)

/-- Two runs of the loop with the same step, the same start value of the loop
variable and the same `now` both run out of fuel, or both exit after the same
number of iterations with the same loop variable. -/
theorem updateLoop_pair (now : ℚ) :
    ∀ (fuel : Nat) (t : ℚ) (w1 w2 : UwDriftPosition × RNG),
      w1.1.updateTime_ = w2.1.updateTime_ →
      (updateLoop now fuel t w1 = none ∧ updateLoop now fuel t w2 = none) ∨
      ∃ (t1 : ℚ) (k : Nat), updateLoop now fuel t w1 = some (t1, updateBody^[k] w1) ∧
        updateLoop now fuel t w2 = some (t1, updateBody^[k] w2) := by
  intro fuel
  induction fuel with
  | zero =>
    intro t w1 w2 _
    by_cases ht : t < now
    · exact Or.inl ⟨by simp [updateLoop, ht], by simp [updateLoop, ht]⟩
    · exact Or.inr ⟨t, 0, by simp [updateLoop, ht], by simp [updateLoop, ht]⟩
  | succ f ih =>
    intro t w1 w2 hdt
    by_cases ht : t < now
    · have hdt1 : (updateBody w1).1.updateTime_ = (updateBody w2).1.updateTime_ := by
        rw [updateBody_updateTime, updateBody_updateTime, hdt]
      rw [updateLoop, updateLoop, if_pos ht, if_pos ht, hdt1]
      rcases ih (t + (updateBody w2).1.updateTime_) (updateBody w1) (updateBody w2) hdt1 with
        h | ⟨t1, k, h1, h2⟩
      · exact Or.inl h
      · exact Or.inr ⟨t1, k + 1, by rw [h1, Function.iterate_succ_apply],
          by rw [h2, Function.iterate_succ_apply]⟩
    · exact Or.inr ⟨t, 0, by simp [updateLoop, ht], by simp [updateLoop, ht]⟩

/-- Two calls of `update` from states with the same step and the same
`nextUpdateTime_`: what one axis shows after the call is the same in both as
soon as it is the same after every number of iterations. -/
theorem update_pair_view {V : Type} (view : UwDriftPosition → V)
    (hview : ∀ (u : UwDriftPosition) (t : ℚ), view { u with nextUpdateTime_ := t } = view u)
    (s1 s2 : UwDriftPosition) (r1 r2 : RNG)
    (hdt : s1.updateTime_ = s2.updateTime_) (hn : s1.nextUpdateTime_ = s2.nextUpdateTime_)
    (hk : ∀ k : Nat, view (updateBody^[k] (s1, r1)).1 = view (updateBody^[k] (s2, r2)).1)
    (fuel : Nat) (now : ℚ) :
    (update fuel now (s1, r1)).map (fun w => (view w.1, w.1.nextUpdateTime_)) =
      (update fuel now (s2, r2)).map (fun w => (view w.1, w.1.nextUpdateTime_)) := by
  unfold update
  show (Option.map _ (updateLoop now fuel s1.nextUpdateTime_ (s1, r1))).map _ =
    (Option.map _ (updateLoop now fuel s2.nextUpdateTime_ (s2, r2))).map _
  rw [← hn]
  rcases updateLoop_pair now fuel s1.nextUpdateTime_ (s1, r1) (s2, r2) hdt with
    ⟨h1, h2⟩ | ⟨t1, k, h1, h2⟩
  · rw [h1, h2]
  · rw [h1, h2]
    simp only [Option.map_some', hview, hk k]

theorem agreeX_view {a b : UwDriftPosition} (h : agreeX a b) : viewX a = viewX b := by
  obtain ⟨_, _, hx, ho, hs, _⟩ := h
  rw [viewX, viewX, hx, ho, hs]

theorem agreeY_view {a b : UwDriftPosition} (h : agreeY a b) : viewY a = viewY b := by
  obtain ⟨_, _, hx, ho, hs, _⟩ := h
  rw [viewY, viewY, hx, ho, hs]

theorem agreeZ_view {a b : UwDriftPosition} (h : agreeZ a b) : viewZ a = viewZ b := by
  obtain ⟨_, _, hx, ho, hs, _⟩ := h
  rw [viewZ, viewZ, hx, ho, hs]

/-- C11: two states with the same `nextUpdateTime_` that agree on `alpha_`,
`updateTime_` and all x fields (`x_`, `old_speed_x_`, `speed_horizontal_`,
`xFieldWidth_`, `boundx_`, `deltax_`), run with generators that give the x axis
the same magnitude and sign draws, have the same `x_`, `old_speed_x_` and
`speed_horizontal_` after every number of loop iterations, and `update(now)`
gives the same three values and the same `nextUpdateTime_` in both (or returns
in neither), however the y and z state and configuration differ. The same
holds for the y axis and for the z axis. -/
theorem axes_independent (s1 s2 : UwDriftPosition) (r1 r2 : RNG)
    (hn : s1.nextUpdateTime_ = s2.nextUpdateTime_) :
    (agreeX s1 s2 → sameDraws 0 r1 r2 →
      (∀ k : Nat, viewX (updateBody^[k] (s1, r1)).1 = viewX (updateBody^[k] (s2, r2)).1) ∧
      ∀ (fuel : Nat) (now : ℚ),
        (update fuel now (s1, r1)).map (fun w => (viewX w.1, w.1.nextUpdateTime_)) =
          (update fuel now (s2, r2)).map (fun w => (viewX w.1, w.1.nextUpdateTime_))) ∧
    (agreeY s1 s2 → sameDraws 2 r1 r2 →
      (∀ k : Nat, viewY (updateBody^[k] (s1, r1)).1 = viewY (updateBody^[k] (s2, r2)).1) ∧
      ∀ (fuel : Nat) (now : ℚ),
        (update fuel now (s1, r1)).map (fun w => (viewY w.1, w.1.nextUpdateTime_)) =
          (update fuel now (s2, r2)).map (fun w => (viewY w.1, w.1.nextUpdateTime_))) ∧
    (agreeZ s1 s2 → sameDraws 4 r1 r2 →
      (∀ k : Nat, viewZ (updateBody^[k] (s1, r1)).1 = viewZ (updateBody^[k] (s2, r2)).1) ∧
      ∀ (fuel : Nat) (now : ℚ),
        (update fuel now (s1, r1)).map (fun w => (viewZ w.1, w.1.nextUpdateTime_)) =
          (update fuel now (s2, r2)).map (fun w => (viewZ w.1, w.1.nextUpdateTime_))) := by
  refine ⟨?_, ?_, ?_⟩
  · intro h hd
    have hk : ∀ k : Nat,
        viewX (updateBody^[k] (s1, r1)).1 = viewX (updateBody^[k] (s2, r2)).1 :=
      fun k => agreeX_view
        (iterate_agree 0 agreeX (fun _ _ _ _ => agreeX_step) k s1 s2 r1 r2 h hd)
    exact ⟨hk, update_pair_view viewX (fun _ _ => rfl) s1 s2 r1 r2 h.2.1 hn hk⟩
  · intro h hd
    have hk : ∀ k : Nat,
        viewY (updateBody^[k] (s1, r1)).1 = viewY (updateBody^[k] (s2, r2)).1 :=
      fun k => agreeY_view
        (iterate_agree 2 agreeY (fun _ _ _ _ => agreeY_step) k s1 s2 r1 r2 h hd)
    exact ⟨hk, update_pair_view viewY (fun _ _ => rfl) s1 s2 r1 r2 h.2.1 hn hk⟩
  · intro h hd
    have hk : ∀ k : Nat,
        viewZ (updateBody^[k] (s1, r1)).1 = viewZ (updateBody^[k] (s2, r2)).1 :=
      fun k => agreeZ_view
        (iterate_agree 4 agreeZ (fun _ _ _ _ => agreeZ_step) k s1 s2 r1 r2 h hd)
    exact ⟨hk, update_pair_view viewZ (fun _ _ => rfl) s1 s2 r1 r2 h.2.1 hn hk⟩

/-- C11 at concrete inputs: `sampleState` against a state with another y and z
axis (bounds off) and other y and z draws, for the x axis; and against a state
with another x axis and other x draws, for the y and the z axis. -/
theorem axes_independent_witness :
    ((agreeX sampleState otherYZState ∧ sameDraws 0 quarterRNG otherYZRNG) ∧
      sampleState.boundy_ ≠ otherYZState.boundy_ ∧
      ∀ k : Nat, viewX (updateBody^[k] (sampleState, quarterRNG)).1 =
        viewX (updateBody^[k] (otherYZState, otherYZRNG)).1) ∧
    ((agreeY sampleState otherXState ∧ sameDraws 2 quarterRNG otherXRNG) ∧
      ∀ k : Nat, viewY (updateBody^[k] (sampleState, quarterRNG)).1 =
        viewY (updateBody^[k] (otherXState, otherXRNG)).1) ∧
    ((agreeZ sampleState otherXState ∧ sameDraws 4 quarterRNG otherXRNG) ∧
      ∀ k : Nat, viewZ (updateBody^[k] (sampleState, quarterRNG)).1 =
        viewZ (updateBody^[k] (otherXState, otherXRNG)).1) := by
  have ax : agreeX sampleState otherYZState := ⟨rfl, rfl, rfl, rfl, rfl, rfl, rfl, rfl⟩
  have ay : agreeY sampleState otherXState := ⟨rfl, rfl, rfl, rfl, rfl, rfl, rfl, rfl⟩
  have az : agreeZ sampleState otherXState := ⟨rfl, rfl, rfl, rfl, rfl, rfl, rfl, rfl⟩
  have dx : sameDraws 0 quarterRNG otherYZRNG := by
    intro i
    have e0 : (0 + 6 * i + 0) % 6 = 0 := by omega
    have e1 : (0 + 6 * i + 0 + 1) % 6 = 1 := by omega
    exact ⟨(if_pos (Or.inl e0)).symm, (if_pos (Or.inr e1)).symm⟩
  have dy : sameDraws 2 quarterRNG otherXRNG := by
    intro i
    have e0 : ¬ ((0 + 6 * i + 2) % 6 = 0 ∨ (0 + 6 * i + 2) % 6 = 1) := by omega
    have e1 : ¬ ((0 + 6 * i + 2 + 1) % 6 = 0 ∨ (0 + 6 * i + 2 + 1) % 6 = 1) := by omega
    exact ⟨(if_neg e0).symm, (if_neg e1).symm⟩
  have dz : sameDraws 4 quarterRNG otherXRNG := by
    intro i
    have e0 : ¬ ((0 + 6 * i + 4) % 6 = 0 ∨ (0 + 6 * i + 4) % 6 = 1) := by omega
    have e1 : ¬ ((0 + 6 * i + 4 + 1) % 6 = 0 ∨ (0 + 6 * i + 4 + 1) % 6 = 1) := by omega
    exact ⟨(if_neg e0).symm, (if_neg e1).symm⟩
  have hne : sampleState.boundy_ ≠ otherYZState.boundy_ := by
    norm_num [sampleState, otherYZState, UwDriftPosition.UwDriftPosition]
  exact ⟨⟨⟨ax, dx⟩, hne,
      ((axes_independent sampleState otherYZState quarterRNG otherYZRNG rfl).1 ax dx).1⟩,
    ⟨⟨ay, dy⟩,
      ((axes_independent sampleState otherXState quarterRNG otherXRNG rfl).2.1 ay dy).1⟩,
    ⟨⟨az, dz⟩,
      ((axes_independent sampleState otherXState quarterRNG otherXRNG rfl).2.2 az dz).1⟩⟩

/-! ## Independence of the query frequency -/

theorem roundHalfEven_intCast (n : ℤ) : roundHalfEven (n : ℚ) = n := by
  simp [roundHalfEven]

theorem floor_le_roundHalfEven (q : ℚ) : ⌊q⌋ ≤ roundHalfEven q := by
  unfold roundHalfEven
  split_ifs <;> omega

theorem roundHalfEven_le_floor_add_one (q : ℚ) : roundHalfEven q ≤ ⌊q⌋ + 1 := by
  unfold roundHalfEven
  split_ifs <;> omega

theorem roundHalfEven_mono {a b : ℚ} (h : a ≤ b) : roundHalfEven a ≤ roundHalfEven b := by
  have hf : ⌊a⌋ ≤ ⌊b⌋ := Int.floor_mono h
  rcases lt_or_eq_of_le hf with hlt | heq
  · calc roundHalfEven a ≤ ⌊a⌋ + 1 := roundHalfEven_le_floor_add_one a
      _ ≤ ⌊b⌋ := hlt
      _ ≤ roundHalfEven b := floor_le_roundHalfEven b
  · have hd : a - ⌊a⌋ ≤ b - ⌊b⌋ := by
      rw [heq]
      linarith
    unfold roundHalfEven
    rw [heq] at hd ⊢
    split_ifs <;> first | omega | (exfalso; linarith)


theorem two_zpow_pos (e : ℤ) : (0 : ℚ) < (2 : ℚ) ^ e := zpow_pos (by norm_num) e

theorem roundDouble_le_of_le_grid {x B : ℚ} (n : ℤ) (hB : B = n * (2 : ℚ) ^ quantumExp x)
    (h : x ≤ B) : roundDouble x ≤ B := by
  have hq := two_zpow_pos (quantumExp x)
  have h1 : x / (2 : ℚ) ^ quantumExp x ≤ n := by
    rw [div_le_iff₀ hq, ← hB]
    exact h
  have h2 : roundHalfEven (x / (2 : ℚ) ^ quantumExp x) ≤ n := by
    have := roundHalfEven_mono h1
    rwa [roundHalfEven_intCast] at this
  rw [roundDouble, hB]
  exact mul_le_mul_of_nonneg_right (by exact_mod_cast h2) (le_of_lt hq)

theorem le_roundDouble_of_grid_le {x B : ℚ} (n : ℤ) (hB : B = n * (2 : ℚ) ^ quantumExp x)
    (h : B ≤ x) : B ≤ roundDouble x := by
  have hq := two_zpow_pos (quantumExp x)
  have h1 : (n : ℚ) ≤ x / (2 : ℚ) ^ quantumExp x := by
    rw [le_div_iff₀ hq, ← hB]
    exact h
  have h2 : n ≤ roundHalfEven (x / (2 : ℚ) ^ quantumExp x) := by
    have := roundHalfEven_mono h1
    rwa [roundHalfEven_intCast] at this
  rw [roundDouble, hB]
  exact mul_le_mul_of_nonneg_right (by exact_mod_cast h2) (le_of_lt hq)

theorem pow2_grid {E g : ℤ} (h : g ≤ E) : ∃ n : ℤ, (2 : ℚ) ^ E = n * (2 : ℚ) ^ g := by
  refine ⟨2 ^ (E - g).toNat, ?_⟩
  have e1 : ((E - g).toNat : ℤ) = E - g := Int.toNat_of_nonneg (by omega)
  have e2 : (2 : ℚ) ^ (E - g) = ((2 ^ (E - g).toNat : ℤ) : ℚ) := by
    rw [← e1]
    push_cast
    rw [zpow_natCast, e1]
  rw [← e2, ← zpow_add₀ (by norm_num : (2 : ℚ) ≠ 0)]
  congr 1
  ring

theorem quantumExp_le_log (x : ℚ) : Int.log 2 |x| - 52 ≤ quantumExp x := le_max_left _ _

theorem roundDouble_mono_same {x y : ℚ} (h : x ≤ y) (hg : quantumExp x = quantumExp y) :
    roundDouble x ≤ roundDouble y := by
  have hq := two_zpow_pos (quantumExp y)
  rw [roundDouble, roundDouble, hg]
  have h1 : x / (2 : ℚ) ^ quantumExp y ≤ y / (2 : ℚ) ^ quantumExp y :=
    div_le_div_of_nonneg_right h (le_of_lt hq)
  exact mul_le_mul_of_nonneg_right (by exact_mod_cast roundHalfEven_mono h1) (le_of_lt hq)

theorem roundDouble_mono {x y : ℚ} (h : x ≤ y) : roundDouble x ≤ roundDouble y := by
  by_cases hg : quantumExp x = quantumExp y
  · exact roundDouble_mono_same h hg
  · rcases le_or_lt x 0 with hx | hx
    · rcases le_or_lt 0 y with hy | hy
      · -- zero lies between
        have h1 : roundDouble x ≤ 0 :=
          roundDouble_le_of_le_grid 0 (by simp) hx
        have h2 : (0 : ℚ) ≤ roundDouble y :=
          le_roundDouble_of_grid_le 0 (by simp) hy
        exact le_trans h1 h2
      · -- both negative
        have hx0 : x < 0 := lt_of_le_of_lt h hy
        have hax : |x| = -x := abs_of_neg hx0
        have hay : |y| = -y := abs_of_neg hy
        have hlog : Int.log 2 |y| ≤ Int.log 2 |x| :=
          Int.log_mono_right (abs_pos.mpr (ne_of_lt hy)) (by rw [hax, hay]; linarith)
        have hgx : quantumExp y < quantumExp x := by
          have : quantumExp y ≤ quantumExp x := max_le_max (by omega) (le_refl _)
          exact lt_of_le_of_ne this (fun e => hg e.symm)
        have hxe : quantumExp x = Int.log 2 |x| - 52 := by
          unfold quantumExp at hgx ⊢
          rcases max_cases (Int.log 2 |x| - 52) (-1074) with ⟨e, _⟩ | ⟨e, _⟩
          · exact e
          · exfalso
            rw [e] at hgx
            have := le_max_right (Int.log 2 |y| - 52) (-1074)
            omega
        have hll : Int.log 2 |y| < Int.log 2 |x| := by
          have := quantumExp_le_log y
          omega
        have hB1 : x ≤ -(2 : ℚ) ^ Int.log 2 |x| := by
          have := Int.zpow_log_le_self (b := 2) (r := |x|) (by norm_num) (abs_pos.mpr (ne_of_lt hx0))
          rw [hax] at this ⊢
          push_cast at this
          linarith
        have hB2 : -(2 : ℚ) ^ Int.log 2 |x| ≤ y := by
          have h1 := Int.lt_zpow_succ_log_self (b := 2) (by norm_num) |y|
          have h2 : (2 : ℚ) ^ (Int.log 2 |y| + 1) ≤ (2 : ℚ) ^ Int.log 2 |x| :=
            zpow_le_zpow_right₀ (by norm_num) (by omega)
          push_cast at h1
          rw [hay] at h1 h2
          linarith
        obtain ⟨n1, hn1⟩ := pow2_grid (E := Int.log 2 |x|) (g := quantumExp x) (by omega)
        obtain ⟨n2, hn2⟩ := pow2_grid (E := Int.log 2 |x|) (g := quantumExp y) (by omega)
        have h1 : roundDouble x ≤ -(2 : ℚ) ^ Int.log 2 |x| :=
          roundDouble_le_of_le_grid (-n1) (by rw [hn1]; push_cast; ring) hB1
        have h2 : -(2 : ℚ) ^ Int.log 2 |x| ≤ roundDouble y :=
          le_roundDouble_of_grid_le (-n2) (by rw [hn2]; push_cast; ring) hB2
        exact le_trans h1 h2
    · -- both positive
      have hy : 0 < y := lt_of_lt_of_le hx h
      have hax : |x| = x := abs_of_pos hx
      have hay : |y| = y := abs_of_pos hy
      have hlog : Int.log 2 |x| ≤ Int.log 2 |y| :=
        Int.log_mono_right (abs_pos.mpr (ne_of_gt hx)) (by rw [hax, hay]; exact h)
      have hgx : quantumExp x < quantumExp y := by
        have : quantumExp x ≤ quantumExp y := max_le_max (by omega) (le_refl _)
        exact lt_of_le_of_ne this hg
      have hye : quantumExp y = Int.log 2 |y| - 52 := by
        unfold quantumExp at hgx ⊢
        rcases max_cases (Int.log 2 |y| - 52) (-1074) with ⟨e, _⟩ | ⟨e, _⟩
        · exact e
        · exfalso
          rw [e] at hgx
          have := le_max_right (Int.log 2 |x| - 52) (-1074)
          omega
      have hll : Int.log 2 |x| < Int.log 2 |y| := by
        have := quantumExp_le_log x
        omega
      have hB2 : (2 : ℚ) ^ Int.log 2 |y| ≤ y := by
        have := Int.zpow_log_le_self (b := 2) (r := |y|) (by norm_num) (abs_pos.mpr (ne_of_gt hy))
        rw [hay] at this ⊢
        push_cast at this
        exact this
      have hB1 : x ≤ (2 : ℚ) ^ Int.log 2 |y| := by
        have h1 := Int.lt_zpow_succ_log_self (b := 2) (by norm_num) |x|
        have h2 : (2 : ℚ) ^ (Int.log 2 |x| + 1) ≤ (2 : ℚ) ^ Int.log 2 |y| :=
          zpow_le_zpow_right₀ (by norm_num) (by omega)
        push_cast at h1
        rw [hax] at h1 h2
        linarith
      obtain ⟨n1, hn1⟩ := pow2_grid (E := Int.log 2 |y|) (g := quantumExp x) (by omega)
      obtain ⟨n2, hn2⟩ := pow2_grid (E := Int.log 2 |y|) (g := quantumExp y) (by omega)
      exact le_trans (roundDouble_le_of_le_grid n1 hn1 hB1) (le_roundDouble_of_grid_le n2 hn2 hB2)

theorem log_eq_of_mem {x : ℚ} {e : ℤ} (h1 : (2 : ℚ) ^ e ≤ x) (h2 : x < (2 : ℚ) ^ (e + 1)) :
    Int.log 2 x = e := by
  have hx : 0 < x := lt_of_lt_of_le (two_zpow_pos e) h1
  have hb : 1 < 2 := by norm_num
  have a1 : e ≤ Int.log 2 x := (Int.zpow_le_iff_le_log hb hx).mp (by exact_mod_cast h1)
  have a2 : Int.log 2 x < e + 1 := (Int.lt_zpow_iff_log_lt hb hx).mp (by exact_mod_cast h2)
  omega

/-- The value of `roundDouble` at a normal number whose exponent `e` is known:
the quotient by the spacing `2 ^ (e - 52)` is rounded to an integer. -/
theorem roundDouble_eq {x : ℚ} (e n : ℤ) (h1 : (2 : ℚ) ^ e ≤ |x|)
    (h2 : |x| < (2 : ℚ) ^ (e + 1)) (h3 : -1074 ≤ e - 52)
    (hn : roundHalfEven (x / (2 : ℚ) ^ (e - 52)) = n) :
    roundDouble x = n * (2 : ℚ) ^ (e - 52) := by
  have hq : quantumExp x = e - 52 := by
    rw [quantumExp, log_eq_of_mem h1 h2]
    exact max_eq_left h3
  rw [roundDouble, hq, hn]

theorem roundDouble_eq_pos {x : ℚ} (e n : ℤ) (h1 : (2 : ℚ) ^ e ≤ x)
    (h2 : x < (2 : ℚ) ^ (e + 1)) (h3 : -1074 ≤ e - 52)
    (hn : roundHalfEven (x / (2 : ℚ) ^ (e - 52)) = n) :
    roundDouble x = n * (2 : ℚ) ^ (e - 52) := by
  have hx : 0 < x := lt_of_lt_of_le (two_zpow_pos e) h1
  exact roundDouble_eq e n (by rw [abs_of_pos hx]; exact h1) (by rw [abs_of_pos hx]; exact h2)
    h3 hn

theorem roundHalfEven_tie_odd (f : ℤ) (h : f % 2 = 1) :
    roundHalfEven ((f : ℚ) + 1 / 2) = f + 1 := by
  have hf : ⌊(f : ℚ) + 1 / 2⌋ = f := by
    rw [Int.floor_eq_iff]
    constructor <;> norm_num
  unfold roundHalfEven
  rw [hf]
  have e : (f : ℚ) + 1 / 2 - f = 1 / 2 := by ring
  rw [e, if_neg (lt_irrefl _), if_neg (lt_irrefl _), if_neg (by omega)]

theorem roundDouble_one : roundDouble 1 = 1 := by
  have h := roundDouble_eq (x := 1) 0 4503599627370496 (by norm_num) (by norm_num)
    (by norm_num)
    (by
      have e : (1 : ℚ) / (2 : ℚ) ^ ((0 : ℤ) - 52) = ((4503599627370496 : ℤ) : ℚ) := by norm_num
      rw [e, roundHalfEven_intCast])
  rw [h]
  norm_num

theorem roundDouble_two : roundDouble 2 = 2 := by
  have h := roundDouble_eq (x := 2) 1 4503599627370496 (by norm_num) (by norm_num)
    (by norm_num)
    (by
      have e : (2 : ℚ) / (2 : ℚ) ^ ((1 : ℤ) - 52) = ((4503599627370496 : ℤ) : ℚ) := by norm_num
      rw [e, roundHalfEven_intCast])
  rw [h]
  norm_num

theorem roundDouble_three : roundDouble 3 = 3 := by
  have h := roundDouble_eq (x := 3) 1 6755399441055744 (by norm_num) (by norm_num)
    (by norm_num)
    (by
      have e : (3 : ℚ) / (2 : ℚ) ^ ((1 : ℤ) - 52) = ((6755399441055744 : ℤ) : ℚ) := by norm_num
      rw [e, roundHalfEven_intCast])
  rw [h]
  norm_num

/-- The double `0.1` added to `0` is exact. -/
theorem roundDouble_tenth : roundDouble (0 + dblTenth) = dblTenth := by
  have h := roundDouble_eq_pos (x := 0 + dblTenth) (-4) 7205759403792794
    (by norm_num [dblTenth]) (by norm_num [dblTenth]) (by norm_num)
    (by
      have e : (0 + dblTenth) / (2 : ℚ) ^ ((-4 : ℤ) - 52) = ((7205759403792794 : ℤ) : ℚ) := by
        norm_num [dblTenth]
      rw [e, roundHalfEven_intCast])
  rw [h]
  norm_num [dblTenth]

/-- The double `0.1` added to itself is exact: the double `0.2`. -/
theorem roundDouble_two_tenths : roundDouble (dblTenth + dblTenth) = 2 * dblTenth := by
  have h := roundDouble_eq_pos (x := dblTenth + dblTenth) (-3) 7205759403792794
    (by norm_num [dblTenth]) (by norm_num [dblTenth]) (by norm_num)
    (by
      have e : (dblTenth + dblTenth) / (2 : ℚ) ^ ((-3 : ℤ) - 52) =
          ((7205759403792794 : ℤ) : ℚ) := by
        norm_num [dblTenth]
      rw [e, roundHalfEven_intCast])
  rw [h]
  norm_num [dblTenth]

/-- The doubles `0.2` and `0.1` add up to a tie between two doubles, which goes
to the even one, `0.30000000000000004 = 5404319552844596 / 2 ^ 54`, above the
exact sum. -/
theorem roundDouble_three_tenths :
    roundDouble (2 * dblTenth + dblTenth) = 5404319552844596 / 18014398509481984 := by
  have h := roundDouble_eq_pos (x := 2 * dblTenth + dblTenth) (-2) 5404319552844596
    (by norm_num [dblTenth]) (by norm_num [dblTenth]) (by norm_num)
    (by
      have e : (2 * dblTenth + dblTenth) / (2 : ℚ) ^ ((-2 : ℤ) - 52) =
          ((5404319552844595 : ℤ) : ℚ) + 1 / 2 := by
        norm_num [dblTenth]
      rw [e, roundHalfEven_tie_odd _ (by norm_num)]
      norm_num)
  rw [h]
  norm_num

theorem roundDouble_2p53 : roundDouble 9007199254740992 = 9007199254740992 := by
  have h := roundDouble_eq (x := 9007199254740992) 53 4503599627370496
    (by norm_num) (by norm_num) (by norm_num)
    (by
      have e : ((9007199254740992 : ℚ)) / (2 : ℚ) ^ ((53 : ℤ) - 52) =
          ((4503599627370496 : ℤ) : ℚ) := by
        norm_num
      rw [e, roundHalfEven_intCast])
  rw [h]
  norm_num

/-! ## The loop with the loop variable in double arithmetic -/

theorem loopVar_shift (dt t : ℚ) (j : Nat) :
    loopVar dt t (j + 1) = loopVar dt (roundDouble (t + dt)) j := by
  induction j with
  | zero => rfl
  | succ j ih =>
    show roundDouble (loopVar dt t (j + 1) + dt) = _
    rw [ih]
    rfl

/-- When `k` is the first index at which the loop variable is not below `now`,
any fuel of at least `k` makes the loop run the body `k` times and exit with
that value of the loop variable. -/
theorem updateLoopD_steps (now : ℚ) (k : Nat) :
    ∀ (fuel : Nat) (t : ℚ) (w : UwDriftPosition × RNG), k ≤ fuel →
      (∀ j : Nat, j < k → loopVar w.1.updateTime_ t j < now) →
      now ≤ loopVar w.1.updateTime_ t k →
      updateLoopD now fuel t w = some (loopVar w.1.updateTime_ t k, updateBody^[k] w) := by
  induction k with
  | zero =>
    intro fuel t w _ _ hk
    have ht : ¬ t < now := not_lt.mpr hk
    cases fuel <;> simp [updateLoopD, loopVar, ht]
  | succ k ih =>
    intro fuel t w hf hlt hk
    obtain ⟨f, rfl⟩ : ∃ f, fuel = f + 1 := ⟨fuel - 1, by omega⟩
    have ht : t < now := hlt 0 (Nat.succ_pos k)
    have hu := updateBody_updateTime w
    rw [updateLoopD, if_pos ht, ih f _ (updateBody w) (by omega)]
    · rw [Function.iterate_succ_apply, hu, loopVar_shift]
    · intro j hj
      have := hlt (j + 1) (by omega)
      rw [loopVar_shift] at this
      rw [hu]
      exact this
    · rw [hu, ← loopVar_shift]
      exact hk

/-- When the loop variable stays below `now` for ever, no fuel is enough. -/
theorem updateLoopD_none (now : ℚ) :
    ∀ (fuel : Nat) (t : ℚ) (w : UwDriftPosition × RNG),
      (∀ j : Nat, loopVar w.1.updateTime_ t j < now) → updateLoopD now fuel t w = none := by
  intro fuel
  induction fuel with
  | zero =>
    intro t w h
    have ht : t < now := h 0
    simp [updateLoopD, ht]
  | succ f ih =>
    intro t w h
    have ht : t < now := h 0
    rw [updateLoopD, if_pos ht]
    apply ih
    intro j
    have := h (j + 1)
    rw [loopVar_shift] at this
    rw [updateBody_updateTime]
    exact this

/-- When the loop returns, it has run the body `k` times, `k` being the first
index at which the loop variable is not below `now`. -/
theorem updateLoopD_some (now : ℚ) :
    ∀ (fuel : Nat) (t : ℚ) (w : UwDriftPosition × RNG) (p : ℚ × (UwDriftPosition × RNG)),
      updateLoopD now fuel t w = some p →
      ∃ k : Nat, k ≤ fuel ∧ (∀ j : Nat, j < k → loopVar w.1.updateTime_ t j < now) ∧
        now ≤ loopVar w.1.updateTime_ t k ∧
        p = (loopVar w.1.updateTime_ t k, updateBody^[k] w) := by
  intro fuel
  induction fuel with
  | zero =>
    intro t w p h
    by_cases ht : t < now
    · simp [updateLoopD, ht] at h
    · rw [updateLoopD, if_neg ht] at h
      exact ⟨0, le_refl 0, fun j hj => absurd hj (Nat.not_lt_zero j), not_lt.mp ht,
        (Option.some.inj h).symm⟩
  | succ f ih =>
    intro t w p h
    by_cases ht : t < now
    · rw [updateLoopD, if_pos ht] at h
      obtain ⟨k, hk, hlt, hge, hp⟩ := ih _ _ p h
      rw [updateBody_updateTime] at hlt hge hp
      refine ⟨k + 1, by omega, ?_, ?_, ?_⟩
      · intro j hj
        cases j with
        | zero => exact ht
        | succ j =>
          rw [loopVar_shift]
          exact hlt j (by omega)
      · rw [loopVar_shift]
        exact hge
      · rw [hp, loopVar_shift, Function.iterate_succ_apply]
    · rw [updateLoopD, if_neg ht] at h
      exact ⟨0, Nat.zero_le _, fun j hj => absurd hj (Nat.not_lt_zero j), not_lt.mp ht,
        (Option.some.inj h).symm⟩

/-- The first index at which the loop variable is not below `now`, when there
is one. -/
theorem exists_first_reach (dt t now : ℚ) (h : ∃ K : Nat, now ≤ loopVar dt t K) :
    ∃ k : Nat, now ≤ loopVar dt t k ∧ ∀ j : Nat, j < k → loopVar dt t j < now := by
  classical
  exact ⟨Nat.find h, Nat.find_spec h, fun j hj => not_le.mp (Nat.find_min h hj)⟩

theorem updateD_of_first (s : UwDriftPosition) (r : RNG) (now : ℚ) (k : Nat)
    (hk : now ≤ loopVar s.updateTime_ s.nextUpdateTime_ k)
    (hlt : ∀ j : Nat, j < k → loopVar s.updateTime_ s.nextUpdateTime_ j < now)
    (fuel : Nat) (hf : k ≤ fuel) :
    updateD fuel now (s, r) =
      some ({ (updateBody^[k] (s, r)).1 with
                nextUpdateTime_ := loopVar s.updateTime_ s.nextUpdateTime_ k },
            (updateBody^[k] (s, r)).2) := by
  have hl := updateLoopD_steps now k fuel s.nextUpdateTime_ (s, r) hf hlt hk
  simp only [updateD, hl, Option.map_some']

theorem updateD_some (s : UwDriftPosition) (r : RNG) (now : ℚ) (fuel : Nat)
    (w : UwDriftPosition × RNG) (h : updateD fuel now (s, r) = some w) :
    ∃ k : Nat, k ≤ fuel ∧
      (∀ j : Nat, j < k → loopVar s.updateTime_ s.nextUpdateTime_ j < now) ∧
      now ≤ loopVar s.updateTime_ s.nextUpdateTime_ k ∧
      w = ({ (updateBody^[k] (s, r)).1 with
                nextUpdateTime_ := loopVar s.updateTime_ s.nextUpdateTime_ k },
            (updateBody^[k] (s, r)).2) := by
  unfold updateD at h
  cases hl : updateLoopD now fuel (s, r).1.nextUpdateTime_ (s, r) with
  | none =>
    rw [hl] at h
    exact absurd h (by simp)
  | some p =>
    rw [hl] at h
    obtain ⟨k, hk, hlt, hge, hp⟩ := updateLoopD_some now fuel _ _ p hl
    refine ⟨k, hk, hlt, hge, ?_⟩
    rw [← Option.some.inj h, hp]

theorem updateD_never (s : UwDriftPosition) (r : RNG) (now : ℚ)
    (h : ∀ j : Nat, loopVar s.updateTime_ s.nextUpdateTime_ j < now) (fuel : Nat) :
    updateD fuel now (s, r) = none := by
  show (updateLoopD now fuel s.nextUpdateTime_ (s, r)).map _ = none
  rw [updateLoopD_none now fuel _ _ h]
  rfl

/-- While every addition is exact the loop variable is the start value plus a
multiple of the step. -/
theorem loopVar_exact (dt t0 : ℚ) (K : Nat)
    (h : ∀ j : Nat, j < K → roundDouble (t0 + j * dt + dt) = t0 + j * dt + dt) :
    ∀ j : Nat, j ≤ K → loopVar dt t0 j = t0 + j * dt := by
  intro j
  induction j with
  | zero =>
    intro _
    simp [loopVar]
  | succ j ih =>
    intro hj
    show roundDouble (loopVar dt t0 j + dt) = _
    rw [ih (by omega), h j (by omega)]
    push_cast
    ring

/-! ## Step quantization -/

/-- The loop variable from `0` with the double `0.1` as step: `0.1`, `0.2`, and
then `0.30000000000000004`, which is above three times the step. -/
theorem loopVar_tenth :
    loopVar dblTenth 0 0 = 0 ∧ loopVar dblTenth 0 1 = dblTenth ∧
    loopVar dblTenth 0 2 = 2 * dblTenth ∧ loopVar dblTenth 0 3 = dblThreeTenthsUp := by
  have h1 : loopVar dblTenth 0 1 = dblTenth := roundDouble_tenth
  have h2 : loopVar dblTenth 0 2 = 2 * dblTenth := by
    show roundDouble (loopVar dblTenth 0 1 + dblTenth) = _
    rw [h1, roundDouble_two_tenths]
  have h3 : loopVar dblTenth 0 3 = dblThreeTenthsUp := by
    show roundDouble (loopVar dblTenth 0 2 + dblTenth) = _
    rw [h2, roundDouble_three_tenths, dblThreeTenthsUp]
  exact ⟨rfl, h1, h2, h3⟩

/-- The loop variable from `0` with step `1`: the sums `1`, `2`, `3` are
exact. -/
theorem loopVar_unit : ∀ j : Nat, j ≤ 3 → loopVar 1 0 j = 0 + j * 1 := by
  apply loopVar_exact
  intro j hj
  interval_cases j
  · norm_num [roundDouble_one]
  · norm_num [roundDouble_two]
  · norm_num [roundDouble_three]

/-- C1 as stated fails in the arithmetic of the program: from
`nextUpdateTime_ = 0` with the double `0.1` as `updateTime_` and
`now = 0.30000000000000004`, the least `k` with `0 + k * updateTime_ >= now` is
`4`, but `update` runs the loop body `3` times (`18` draws) and leaves
`nextUpdateTime_ = now`, which is not `0 + 4 * updateTime_`: the third sum is
rounded up to `now`. -/
theorem step_quantization_counterexample :
    0 < tenthState.updateTime_ ∧
    (dblThreeTenthsUp ≤ tenthState.nextUpdateTime_ + (4 : Nat) * tenthState.updateTime_ ∧
      ∀ j : Nat, dblThreeTenthsUp ≤ tenthState.nextUpdateTime_ + j * tenthState.updateTime_ →
        4 ≤ j) ∧
    ∀ fuel : Nat, 3 ≤ fuel →
      ∃ w, updateD fuel dblThreeTenthsUp (tenthState, quarterRNG) = some w ∧
        w = ({ (updateBody^[3] (tenthState, quarterRNG)).1 with
                nextUpdateTime_ := dblThreeTenthsUp },
              (updateBody^[3] (tenthState, quarterRNG)).2) ∧
        w.2.pos = quarterRNG.pos + 6 * 3 ∧
        w.1.nextUpdateTime_ = dblThreeTenthsUp ∧
        w.1.nextUpdateTime_ ≠
          tenthState.nextUpdateTime_ + (4 : Nat) * tenthState.updateTime_ := by
  have hdt : tenthState.updateTime_ = dblTenth := rfl
  have hn : tenthState.nextUpdateTime_ = 0 := rfl
  obtain ⟨l0, l1, l2, l3⟩ := loopVar_tenth
  refine ⟨by rw [hdt]; norm_num [dblTenth], ⟨?_, ?_⟩, ?_⟩
  · rw [hdt, hn]
    norm_num [dblTenth, dblThreeTenthsUp]
  · intro j hj
    rw [hdt, hn] at hj
    by_contra hcon
    have hj3 : (j : ℚ) ≤ 3 := by exact_mod_cast (by omega : j ≤ 3)
    have : (0 : ℚ) + j * dblTenth ≤ 0 + 3 * dblTenth := by
      have hd : (0 : ℚ) ≤ dblTenth := by norm_num [dblTenth]
      nlinarith
    norm_num [dblTenth, dblThreeTenthsUp] at hj this
    linarith
  · intro fuel hf
    have hu := updateD_of_first tenthState quarterRNG dblThreeTenthsUp 3
      (by rw [hdt, hn, l3])
      (by
        intro j hj
        rw [hdt, hn]
        interval_cases j
        · rw [l0]
          norm_num [dblThreeTenthsUp]
        · rw [l1]
          norm_num [dblTenth, dblThreeTenthsUp]
        · rw [l2]
          norm_num [dblTenth, dblThreeTenthsUp])
      fuel hf
    rw [hdt, hn, l3] at hu
    refine ⟨_, hu, rfl, iterate_pos 3 _, rfl, ?_⟩
    show dblThreeTenthsUp ≠ _
    rw [hdt, hn]
    norm_num [dblTenth, dblThreeTenthsUp]

/-- C1, amended: in the arithmetic of the program, `update(now)` runs the loop
body exactly `k` times (`6 * k` draws) and leaves `nextUpdateTime_ = t_k`, where
`t_0` is the old `nextUpdateTime_`, `t_(j+1)` is the double nearest to
`t_j + updateTime_`, and `k` is the least natural number with `t_k >= now`
(`k = 0` when `nextUpdateTime_ >= now`); every returning call is of this form,
such a `k` exists as soon as some `t_K >= now`, and when no `t_j` reaches `now`
the call never returns. When the sums are exact up to `k`
(`t_j = nextUpdateTime_ + j * updateTime_` for `j <= k`) and `k` is the least
natural number with `nextUpdateTime_ + k * updateTime_ >= now`, the call runs
`k` steps and leaves `nextUpdateTime_ + k * updateTime_`. -/
theorem updateD_step_quantization (s : UwDriftPosition) (r : RNG) (now : ℚ) :
    (∀ k : Nat, now ≤ loopVar s.updateTime_ s.nextUpdateTime_ k →
      (∀ j : Nat, j < k → loopVar s.updateTime_ s.nextUpdateTime_ j < now) →
      ∀ fuel : Nat, k ≤ fuel →
        updateD fuel now (s, r) =
            some ({ (updateBody^[k] (s, r)).1 with
                      nextUpdateTime_ := loopVar s.updateTime_ s.nextUpdateTime_ k },
                  (updateBody^[k] (s, r)).2) ∧
          (updateBody^[k] (s, r)).2.pos = r.pos + 6 * k) ∧
    ((∃ K : Nat, now ≤ loopVar s.updateTime_ s.nextUpdateTime_ K) →
      ∃ k : Nat, now ≤ loopVar s.updateTime_ s.nextUpdateTime_ k ∧
        ∀ j : Nat, j < k → loopVar s.updateTime_ s.nextUpdateTime_ j < now) ∧
    (s.nextUpdateTime_ ≥ now → ∀ fuel : Nat, updateD fuel now (s, r) = some (s, r)) ∧
    (∀ (fuel : Nat) (w : UwDriftPosition × RNG), updateD fuel now (s, r) = some w →
      ∃ k : Nat, k ≤ fuel ∧
        (∀ j : Nat, j < k → loopVar s.updateTime_ s.nextUpdateTime_ j < now) ∧
        now ≤ loopVar s.updateTime_ s.nextUpdateTime_ k ∧
        w = ({ (updateBody^[k] (s, r)).1 with
                  nextUpdateTime_ := loopVar s.updateTime_ s.nextUpdateTime_ k },
              (updateBody^[k] (s, r)).2)) ∧
    ((∀ j : Nat, loopVar s.updateTime_ s.nextUpdateTime_ j < now) →
      ∀ fuel : Nat, updateD fuel now (s, r) = none) ∧
    (∀ k : Nat,
      (∀ j : Nat, j ≤ k →
        loopVar s.updateTime_ s.nextUpdateTime_ j = s.nextUpdateTime_ + j * s.updateTime_) →
      now ≤ s.nextUpdateTime_ + k * s.updateTime_ →
      (∀ j : Nat, now ≤ s.nextUpdateTime_ + j * s.updateTime_ → k ≤ j) →
      ∀ fuel : Nat, k ≤ fuel →
        updateD fuel now (s, r) =
            some ({ (updateBody^[k] (s, r)).1 with
                      nextUpdateTime_ := s.nextUpdateTime_ + k * s.updateTime_ },
                  (updateBody^[k] (s, r)).2) ∧
          (updateBody^[k] (s, r)).2.pos = r.pos + 6 * k) := by
  refine ⟨?_, exists_first_reach _ _ _, ?_, updateD_some s r now, updateD_never s r now, ?_⟩
  · intro k hk hlt fuel hf
    exact ⟨updateD_of_first s r now k hk hlt fuel hf, iterate_pos k _⟩
  · intro h fuel
    exact updateD_of_first s r now 0 h (fun j hj => absurd hj (Nat.not_lt_zero j)) fuel
      (Nat.zero_le _)
  · intro k hex hk hmin fuel hf
    have hlt : ∀ j : Nat, j < k → loopVar s.updateTime_ s.nextUpdateTime_ j < now := by
      intro j hj
      rw [hex j (le_of_lt hj)]
      by_contra hcon
      have := hmin j (not_lt.mp hcon)
      omega
    have hu := updateD_of_first s r now k (by rw [hex k (le_refl k)]; exact hk) hlt fuel hf
    rw [hex k (le_refl k)] at hu
    exact ⟨hu, iterate_pos k _⟩

/-- C1 (amended) at a concrete input: from `0` with step `1` the sums `1`, `2`,
`3` are exact, and `3` is the least `k` with `0 + k * 1 >= 5/2`: `update(5/2)`
runs three steps and leaves `nextUpdateTime_ = 3`. -/
theorem updateD_step_quantization_witness :
    ((∀ j : Nat, j ≤ 3 → loopVar sampleState.updateTime_ sampleState.nextUpdateTime_ j =
        sampleState.nextUpdateTime_ + j * sampleState.updateTime_) ∧
      (5 / 2 : ℚ) ≤ sampleState.nextUpdateTime_ + (3 : Nat) * sampleState.updateTime_ ∧
      ∀ j : Nat, (5 / 2 : ℚ) ≤ sampleState.nextUpdateTime_ + j * sampleState.updateTime_ →
        3 ≤ j) ∧
    updateD 3 (5 / 2) (sampleState, quarterRNG) =
        some ({ (updateBody^[3] (sampleState, quarterRNG)).1 with
                  nextUpdateTime_ :=
                    sampleState.nextUpdateTime_ + (3 : Nat) * sampleState.updateTime_ },
              (updateBody^[3] (sampleState, quarterRNG)).2) ∧
      (updateBody^[3] (sampleState, quarterRNG)).2.pos = quarterRNG.pos + 6 * 3 := by
  have hdt : sampleState.updateTime_ = 1 := rfl
  have hn : sampleState.nextUpdateTime_ = 0 := rfl
  have hex : ∀ j : Nat, j ≤ 3 →
      loopVar sampleState.updateTime_ sampleState.nextUpdateTime_ j =
        sampleState.nextUpdateTime_ + j * sampleState.updateTime_ := by
    rw [hdt, hn]
    exact loopVar_unit
  have hk : (5 / 2 : ℚ) ≤ sampleState.nextUpdateTime_ + (3 : Nat) * sampleState.updateTime_ := by
    rw [hdt, hn]
    norm_num
  have hmin : ∀ j : Nat,
      (5 / 2 : ℚ) ≤ sampleState.nextUpdateTime_ + j * sampleState.updateTime_ → 3 ≤ j := by
    intro j hj
    rw [hdt, hn] at hj
    have h2 : (2 : ℚ) < j := by linarith
    have h3 : 2 < j := by exact_mod_cast h2
    omega
  exact ⟨⟨hex, hk, hmin⟩,
    (updateD_step_quantization sampleState quarterRNG (5 / 2)).2.2.2.2.2 3 hex hk hmin 3
      (le_refl 3)⟩

/-! ## Overshoot -/

/-- C2 as stated fails, in two ways. A state with `updateTime_ = 1` that is
advanced to `10`, asked for `now = 1`, keeps `nextUpdateTime_ = 10`, and
`10 - 1 < 1` is false. And from `nextUpdateTime_ = 0` with the double `0.1` as
`updateTime_` and `now = 0.20000000000000004`, the loop stops at
`0.30000000000000004` (the third sum is rounded up), so
`nextUpdateTime_ - updateTime_` is equal to `now`, not below it. -/
theorem overshoot_counterexample :
    (0 < aheadState.updateTime_ ∧
      ∃ w, updateD 0 1 (aheadState, quarterRNG) = some w ∧
        ¬ (w.1.nextUpdateTime_ ≥ 1 ∧ w.1.nextUpdateTime_ - w.1.updateTime_ < 1)) ∧
    (0 < tenthState.updateTime_ ∧ tenthState.nextUpdateTime_ < dblTwoTenthsUp ∧
      ∀ fuel : Nat, 3 ≤ fuel →
        ∃ w, updateD fuel dblTwoTenthsUp (tenthState, quarterRNG) = some w ∧
          w.1.nextUpdateTime_ - w.1.updateTime_ = dblTwoTenthsUp ∧
          ¬ (w.1.nextUpdateTime_ ≥ dblTwoTenthsUp ∧
            w.1.nextUpdateTime_ - w.1.updateTime_ < dblTwoTenthsUp)) := by
  constructor
  · have hn : aheadState.nextUpdateTime_ = 10 := rfl
    have hu := updateD_of_first aheadState quarterRNG 1 0
      (by show (1 : ℚ) ≤ aheadState.nextUpdateTime_; rw [hn]; norm_num)
      (fun j hj => absurd hj (Nat.not_lt_zero j)) 0 (le_refl 0)
    refine ⟨by norm_num [aheadState, sampleState, UwDriftPosition.UwDriftPosition], _, hu, ?_⟩
    show ¬ (aheadState.nextUpdateTime_ ≥ 1 ∧
      aheadState.nextUpdateTime_ - aheadState.updateTime_ < 1)
    norm_num [aheadState, sampleState, UwDriftPosition.UwDriftPosition]
  · have hdt : tenthState.updateTime_ = dblTenth := rfl
    have hn : tenthState.nextUpdateTime_ = 0 := rfl
    obtain ⟨l0, l1, l2, l3⟩ := loopVar_tenth
    refine ⟨by rw [hdt]; norm_num [dblTenth], by rw [hn]; norm_num [dblTwoTenthsUp], ?_⟩
    intro fuel hf
    have hu := updateD_of_first tenthState quarterRNG dblTwoTenthsUp 3
      (by rw [hdt, hn, l3]; norm_num [dblTwoTenthsUp, dblThreeTenthsUp])
      (by
        intro j hj
        rw [hdt, hn]
        interval_cases j
        · rw [l0]
          norm_num [dblTwoTenthsUp]
        · rw [l1]
          norm_num [dblTenth, dblTwoTenthsUp]
        · rw [l2]
          norm_num [dblTenth, dblTwoTenthsUp])
      fuel hf
    rw [hdt, hn, l3] at hu
    have hw : (updateBody^[3] (tenthState, quarterRNG)).1.updateTime_ = dblTenth :=
      iterate_updateTime 3 (tenthState, quarterRNG)
    have hsub : dblThreeTenthsUp - dblTenth = dblTwoTenthsUp := by
      norm_num [dblThreeTenthsUp, dblTenth, dblTwoTenthsUp]
    refine ⟨_, hu, ?_, ?_⟩
    · show dblThreeTenthsUp - (updateBody^[3] (tenthState, quarterRNG)).1.updateTime_ = _
      rw [hw, hsub]
    · show ¬ (dblThreeTenthsUp ≥ dblTwoTenthsUp ∧
        dblThreeTenthsUp - (updateBody^[3] (tenthState, quarterRNG)).1.updateTime_ <
          dblTwoTenthsUp)
      rw [hw, hsub]
      exact fun h => lt_irrefl _ h.2

/-- C2, amended: in the arithmetic of the program, whenever `update(now)`
returns (it does as soon as the loop variable reaches `now`) the new
`nextUpdateTime_` is `>= now`. If `nextUpdateTime_ < now` before the call, the
new value is the double nearest to `t + updateTime_` for a value `t < now` of
the loop variable, hence at most the double nearest to `now + updateTime_`, and
when that last sum is exact, `nextUpdateTime_ - updateTime_ < now`. If
`now <= nextUpdateTime_` before the call, no step is run and state and
generator are unchanged. -/
theorem updateD_overshoot (s : UwDriftPosition) (r : RNG) (now : ℚ) :
    (∀ (fuel : Nat) (w : UwDriftPosition × RNG), updateD fuel now (s, r) = some w →
      w.1.nextUpdateTime_ ≥ now ∧ w.1.updateTime_ = s.updateTime_ ∧
      (s.nextUpdateTime_ < now →
        ∃ t : ℚ, t < now ∧ w.1.nextUpdateTime_ = roundDouble (t + s.updateTime_) ∧
          w.1.nextUpdateTime_ ≤ roundDouble (now + s.updateTime_) ∧
          (roundDouble (t + s.updateTime_) = t + s.updateTime_ →
            w.1.nextUpdateTime_ - w.1.updateTime_ < now)) ∧
      (now ≤ s.nextUpdateTime_ → w = (s, r))) ∧
    ((∃ K : Nat, now ≤ loopVar s.updateTime_ s.nextUpdateTime_ K) →
      ∃ fuel0 : Nat, ∀ fuel : Nat, fuel0 ≤ fuel →
        ∃ w, updateD fuel now (s, r) = some w) := by
  constructor
  · intro fuel w h
    obtain ⟨k, _, hlt, hge, rfl⟩ := updateD_some s r now fuel w h
    have hdt : (updateBody^[k] (s, r)).1.updateTime_ = s.updateTime_ :=
      iterate_updateTime k (s, r)
    refine ⟨hge, hdt, ?_, ?_⟩
    · intro hs
      cases k with
      | zero => exact absurd hs (not_lt.mpr hge)
      | succ m =>
        have ht := hlt m (Nat.lt_succ_self m)
        refine ⟨loopVar s.updateTime_ s.nextUpdateTime_ m, ht, rfl, ?_, ?_⟩
        · show roundDouble (loopVar s.updateTime_ s.nextUpdateTime_ m + s.updateTime_) ≤ _
          exact roundDouble_mono (by linarith)
        · intro hex
          show roundDouble (loopVar s.updateTime_ s.nextUpdateTime_ m + s.updateTime_) -
            (updateBody^[m + 1] (s, r)).1.updateTime_ < now
          rw [hdt, hex]
          linarith
    · intro hs
      cases k with
      | zero => rfl
      | succ m =>
        have h0 := hlt 0 (Nat.succ_pos m)
        exact absurd hs (not_le.mpr h0)
  · intro hK
    obtain ⟨k, hk, hlt⟩ := exists_first_reach _ _ _ hK
    exact ⟨k, fun fuel hf => ⟨_, updateD_of_first s r now k hk hlt fuel hf⟩⟩

/-- C2 (amended) at a concrete input: `sampleState` (caught up to `0`, step
`1`) asked for time `5/2` stops at `3`, the sum `2 + 1` of the loop value
`2 < 5/2` and the step, which is exact. -/
theorem updateD_overshoot_witness :
    sampleState.nextUpdateTime_ < 5 / 2 ∧
    ∃ w, updateD 3 (5 / 2) (sampleState, quarterRNG) = some w ∧
      w.1.nextUpdateTime_ = 3 ∧ w.1.nextUpdateTime_ ≥ 5 / 2 ∧
      ∃ t : ℚ, t < 5 / 2 ∧ w.1.nextUpdateTime_ = roundDouble (t + sampleState.updateTime_) ∧
        w.1.nextUpdateTime_ ≤ roundDouble (5 / 2 + sampleState.updateTime_) ∧
        (roundDouble (t + sampleState.updateTime_) = t + sampleState.updateTime_ →
          w.1.nextUpdateTime_ - w.1.updateTime_ < 5 / 2) := by
  have hdt : sampleState.updateTime_ = 1 := rfl
  have hn : sampleState.nextUpdateTime_ = 0 := rfl
  have hs : sampleState.nextUpdateTime_ < 5 / 2 := by
    rw [hn]
    norm_num
  have hu := updateD_of_first sampleState quarterRNG (5 / 2) 3
    (by rw [hdt, hn, loopVar_unit 3 (le_refl 3)]; norm_num)
    (by
      intro j hj
      rw [hdt, hn, loopVar_unit j (by omega)]
      have : (j : ℚ) ≤ 2 := by exact_mod_cast (by omega : j ≤ 2)
      linarith)
    3 (le_refl 3)
  have h := (updateD_overshoot sampleState quarterRNG (5 / 2)).1 3 _ hu
  refine ⟨hs, _, hu, ?_, h.1, h.2.2.1 hs⟩
  show loopVar sampleState.updateTime_ sampleState.nextUpdateTime_ 3 = 3
  rw [hdt, hn, loopVar_unit 3 (le_refl 3)]
  norm_num

/-! ## Termination of the catch-up loop -/

end UwDrift
